import Mathlib

/-!
# Verification of the SQL-server MCP transactional lifecycle core

Shallow embedding of the repository's core components:

* `SQLValidator` (src/security/validator.ts): statement admission gate.
* `VersionManager` (src/utils/version-manager.ts): version-history store.
* `SPDraftManager` (src/tools/sp-management/sp-draft-manager.ts): the
  draft → deploy → rollback workflow.
* `TransactionManager` (src/database/transaction-manager.ts): transaction
  registry with timeout sweep.
* `AuditLogger` (src/security/audit-logger.ts): buffered audit sink.

Strings are modelled as Lean `String`s / `List Char`; the JS regular
expressions used by the source are translated into explicit character-list
scanners.  Database tables touched by the code (the procedure catalog and
`dbo.SPVersionHistory`) are modelled as association lists; executing a
`CREATE PROCEDURE` statement is modelled as binding the target
`(schema, name)` to the full statement text, matching the fact that
`OBJECT_DEFINITION` returns exactly the text of the creating statement.
-/

/-! ## Character-level helpers (JS string/regex semantics, ASCII fragment) -/

/-- JS whitespace (`\s`, and the characters trimmed by `String.prototype.trim`),
restricted to the ASCII range. -/
def isJsWs (c : Char) : Bool :=
  c == ' ' || c == '\t' || c == '\n' || c == '\r' ||
  c == Char.ofNat 11 || c == Char.ofNat 12

/-- JS regex word character `\w` = `[A-Za-z0-9_]`. -/
def isWordChar (c : Char) : Bool := c.isAlphanum || c == '_'

/-- The single-quote character (used by the injection-shape pattern). -/
def singleQuote : Char := Char.ofNat 39

/-- A line terminator for the JS regex `.` (which never matches one). -/
def isNlChar (c : Char) : Bool := c == '\n' || c == '\r'

/-- Case-insensitive prefix test on character lists. -/
def isPrefixCI : List Char → List Char → Bool
  | [], _ => true
  | _ :: _, [] => false
  | a :: as, b :: bs => (a.toLower == b.toLower) && isPrefixCI as bs

/-- `trim()` from JS: remove leading and trailing whitespace. -/
def trimChars (s : List Char) : List Char :=
  ((s.dropWhile isJsWs).reverse.dropWhile isJsWs).reverse

/-- Skip leading whitespace (the effect of a greedy `\s*`). -/
def skipWs (s : List Char) : List Char := s.dropWhile isJsWs

/-- Does some suffix of the list satisfy the head-anchored matcher `p`?
This is how an unanchored JS regex searches a string. -/
def anySuffix (p : List Char → Bool) : List Char → Bool
  | [] => p []
  | c :: rest => p (c :: rest) || anySuffix p rest

namespace SQLValidator

/-! ### `SQLValidator` (src/security/validator.ts)

The validator is constructed from `securityConfig.blockedKeywords`; each
keyword `kw` becomes the regex `\bkw\b` with flag `i`. -/

/-- Result object of `SQLValidator.validate`. -/
structure ValidationResult where
  valid : Bool
  errors : List String
deriving Repr, DecidableEq

/-- Is position `i` of `s` occupied by a word character (out of range counts
as non-word, as for JS `\b` at the ends of the string)? -/
def wordCharAt (s : List Char) (i : Nat) : Bool :=
  match s.drop i with
  | [] => false
  | c :: _ => isWordChar c

/-- JS word boundary `\b` at position `i` (between characters `i-1` and `i`). -/
def boundaryAt (s : List Char) (i : Nat) : Bool :=
  let before := match i with
    | 0 => false
    | j + 1 => wordCharAt s j
  before != wordCharAt s i

/-- Test of the regex `\b<keyword>\b` with flag `i` against `sql`
(the keyword is taken literally, as the source interpolates it unescaped). -/
def containsWholeWordCI (keyword sql : String) : Bool :=
  let s := sql.data
  let sLower := s.map Char.toLower
  let k := keyword.data.map Char.toLower
  (List.range (s.length + 1)).any fun i =>
    k.isPrefixOf (sLower.drop i) && boundaryAt s i && boundaryAt s (i + k.length)

/-- Head-anchored match of `;\s*<word>` (for `/;\s*DROP/i`, `/;\s*DELETE/i`);
operates on a lowercased list. -/
def semiThenWordAt (w : List Char) (s : List Char) : Bool :=
  match s with
  | c :: rest => c == ';' && w.isPrefixOf (skipWs rest)
  | [] => false

/-- Head-anchored match of `/EXEC\s*\(/i` on a lowercased list. -/
def execParenAt (s : List Char) : Bool :=
  "exec".data.isPrefixOf s &&
    (match skipWs (s.drop 4) with
     | c :: _ => c == '('
     | [] => false)

/-- Searching for `=` with `.*=`: `.` never crosses a line terminator. -/
def injFindEq : List Char → Bool
  | [] => false
  | c :: r => if isNlChar c then false else c == '=' || injFindEq r

/-- Searching for `'.*=` (a closing quote, then an equals sign), without
crossing a line terminator. -/
def injFindQuoteThenEq : List Char → Bool
  | [] => false
  | c :: r =>
    if isNlChar c then false
    else (c == singleQuote && injFindEq r) || injFindQuoteThenEq r

/-- Searching for `OR.*'.*=` (case-folded input), without crossing a line
terminator. -/
def injFindOr : List Char → Bool
  | [] => false
  | c :: r =>
    if isNlChar c then false
    else ("or".data.isPrefixOf (c :: r) && injFindQuoteThenEq (r.drop 1)) ||
      injFindOr r

/-- Test of the crude injection shape `/'.*OR.*'.*=/i` on a lowercased list. -/
def injPattern (s : List Char) : Bool :=
  anySuffix
    (fun t =>
      match t with
      | c :: r => c == singleQuote && injFindOr r
      | [] => false)
    s

/-- `containsSuspiciousPattern` from the source: the fixed pattern set
`[/;\s*DROP/i, /;\s*DELETE/i, /EXEC\s*\(/i, /xp_cmdshell/i,
/sp_executesql/i, /'.*OR.*'.*=/i]`. -/
def containsSuspiciousPattern (sql : String) : Bool :=
  let s := sql.data.map Char.toLower
  anySuffix (semiThenWordAt "drop".data) s ||
  anySuffix (semiThenWordAt "delete".data) s ||
  anySuffix execParenAt s ||
  anySuffix (fun t => "xp_cmdshell".data.isPrefixOf t) s ||
  anySuffix (fun t => "sp_executesql".data.isPrefixOf t) s ||
  injPattern s

/-- Head-anchored match of `\(\s*@` after an `EXEC`/`EXECUTE` token. -/
def parenThenParamAt (r : List Char) : Bool :=
  match skipWs r with
  | c :: r2 =>
    c == '(' &&
      (match skipWs r2 with
       | d :: _ => d == '@'
       | [] => false)
  | [] => false

/-- Head-anchored match of `\s+@` after an `EXEC`/`EXECUTE` token. -/
def wsThenParamAt (r : List Char) : Bool :=
  match r with
  | c :: r2 =>
    isJsWs c &&
      (match skipWs r2 with
       | d :: _ => d == '@'
       | [] => false)
  | [] => false

/-- Head-anchored match of `/EXEC(UTE)?\s*\(\s*@/i` on a lowercased list. -/
def unsafeParenAt (s : List Char) : Bool :=
  "exec".data.isPrefixOf s &&
    (parenThenParamAt (s.drop 4) ||
      ("ute".data.isPrefixOf (s.drop 4) && parenThenParamAt (s.drop 7)))

/-- Head-anchored match of `/EXEC(UTE)?\s+@/i` on a lowercased list. -/
def unsafeWsAt (s : List Char) : Bool :=
  "exec".data.isPrefixOf s &&
    (wsThenParamAt (s.drop 4) ||
      ("ute".data.isPrefixOf (s.drop 4) && wsThenParamAt (s.drop 7)))

/-- `containsUnsafeDynamicSQL` from the source:
`/EXEC(UTE)?\s*\(\s*@/i.test(sql) || /EXEC(UTE)?\s+@/i.test(sql)`. -/
def containsUnsafeDynamicSQL (sql : String) : Bool :=
  let s := sql.data.map Char.toLower
  anySuffix unsafeParenAt s || anySuffix unsafeWsAt s

/-- `SQLValidator.validate`.  Collects one error per matching blocked
keyword (message uses `pattern.source`, i.e. `\b<kw>\b`), one for the
suspicious-pattern set, one for unsafe dynamic SQL; `valid` iff no errors. -/
def validate (blockedKeywords : List String) (sql : String) : ValidationResult :=
  let kwErrors :=
    (blockedKeywords.filter fun kw => containsWholeWordCI kw sql).map
      fun kw => "Blocked keyword found: \\b" ++ kw ++ "\\b"
  let susErrors :=
    if containsSuspiciousPattern sql then ["SQL contains suspicious patterns"] else []
  let dynErrors :=
    if containsUnsafeDynamicSQL sql then ["Unsafe dynamic SQL detected"] else []
  let errors := kwErrors ++ susErrors ++ dynErrors
  { valid := errors.isEmpty, errors := errors }

/-- The write-verb list of `SQLValidator.isWriteQuery`. -/
def writeKeywords : List String :=
  ["INSERT", "UPDATE", "DELETE", "MERGE", "TRUNCATE", "CREATE", "ALTER", "DROP"]

/-- `SQLValidator.isWriteQuery`: trim, uppercase, and test whether any write
verb is a prefix of the result. -/
def isWriteQuery (sql : String) : Bool :=
  let normalizedSql := (trimChars sql.data).map Char.toUpper
  writeKeywords.any fun keyword => keyword.data.isPrefixOf normalizedSql

end SQLValidator

/-! ## Database state

The procedure catalog is an association list from `(schema, name)` to the
full text of the statement that created the procedure (this is what
`OBJECT_DEFINITION` returns).  The `dbo.SPVersionHistory` table is a list of
rows in insertion order. -/

/-- One row of `dbo.SPVersionHistory`. -/
structure VersionRow where
  schemaName : String
  procName : String
  version : Nat
  definition : String
  comment : Option String
deriving Repr, DecidableEq

/-- The procedure catalog. -/
abbrev ProcMap := List ((String × String) × String)

/-- Look up a procedure's definition text (`OBJECT_DEFINITION`). -/
def getProc (ps : ProcMap) (sch nm : String) : Option String :=
  (ps.find? fun p => p.1.1 == sch && p.1.2 == nm).map (·.2)

/-- Effect of `IF EXISTS ... DROP PROCEDURE sch.nm`. -/
def dropProc (ps : ProcMap) (sch nm : String) : ProcMap :=
  ps.filter fun p => !(p.1.1 == sch && p.1.2 == nm)

/-- Effect of executing a `CREATE PROCEDURE` statement whose target resolves
to `(sch, nm)`, with text `defn` (preceded by a conditional drop this models
drop-then-create). -/
def setProc (ps : ProcMap) (sch nm defn : String) : ProcMap :=
  dropProc ps sch nm ++ [((sch, nm), defn)]

/-- Database state: procedure catalog plus the version-history table. -/
structure DBState where
  procs : ProcMap
  versions : List VersionRow
deriving Repr, DecidableEq

namespace VersionManager

/-! ### `VersionManager` (src/utils/version-manager.ts) -/

/-- `WHERE SchemaName = @schema AND ProcedureName = @name`. -/
def rowsFor (vs : List VersionRow) (sch nm : String) : List VersionRow :=
  vs.filter fun r => r.schemaName == sch && r.procName == nm

/-- `MAX(Version)` over a set of rows, with `ISNULL(..., 0)`. -/
def maxVer (rows : List VersionRow) : Nat :=
  rows.foldr (fun r m => max r.version m) 0

/-- The `SELECT ISNULL(MAX(Version), 0) + 1` scalar query in `saveVersion`. -/
def nextVersion (vs : List VersionRow) (sch nm : String) : Nat :=
  maxVer (rowsFor vs sch nm) + 1

/-- Number of rows (of a given key's row set) with a strictly larger version:
a version value `v` survives `Version NOT IN (SELECT TOP (@maxVersions)
Version ... ORDER BY Version DESC)` exactly when this count is below the
retention limit. -/
def countGreater (rows : List VersionRow) (v : Nat) : Nat :=
  (rows.filter fun r => v < r.version).length

/-- `cleanupOldVersions`: delete every row of the key whose version is not
among the `maxVersions` most recent version values. -/
def cleanupOldVersions (maxVersions : Nat) (sch nm : String)
    (vs : List VersionRow) : List VersionRow :=
  let keyRows := rowsFor vs sch nm
  vs.filter fun r =>
    !(r.schemaName == sch && r.procName == nm) ||
      decide (countGreater keyRows r.version < maxVersions)

/-- The `comment || null` conversion in the insert of `saveVersion`
(JS truthiness: an empty string is stored as `NULL`). -/
def normComment (comment : Option String) : Option String :=
  match comment with
  | some c => if c == "" then none else some c
  | none => none

/-- `VersionManager.saveVersion`: read `1 + max existing version`, insert the
row, prune, and return the new version number. -/
def saveVersion (maxVersions : Nat) (sch nm definition : String)
    (comment : Option String) (vs : List VersionRow) : Nat × List VersionRow :=
  let v := nextVersion vs sch nm
  let inserted := vs ++ [⟨sch, nm, v, definition, normComment comment⟩]
  (v, cleanupOldVersions maxVersions sch nm inserted)

/-- `VersionManager.getVersion`: the row of the key with the given version. -/
def getVersion (vs : List VersionRow) (sch nm : String) (version : Nat) :
    Option VersionRow :=
  (rowsFor vs sch nm).find? fun r => r.version == version

/-- `VersionManager.getLatestVersion`: `SELECT TOP 1 ... ORDER BY Version
DESC` (among ties the choice is unspecified in SQL; the model keeps the
first). -/
def getLatestVersion (vs : List VersionRow) (sch nm : String) :
    Option VersionRow :=
  (rowsFor vs sch nm).foldl
    (fun acc r =>
      match acc with
      | none => some r
      | some b => if b.version < r.version then some r else some b)
    none

end VersionManager

namespace SPDraftManager

/-! ### `SPDraftManager` (src/tools/sp-management/sp-draft-manager.ts)

Only the members reached by the claims are embedded: `deployDraft`,
`rollback` and the production-schema rewrite they use.  Engine failures
inside the swap transaction are modelled by an oracle argument naming the
statement at which the transaction fails; the transaction's rollback
restores the catalog to its state at `begin`. -/

open VersionManager

/-- Case-insensitive global replacement of a literal pattern (the
`new RegExp(draftSchema + "\\.", "gi")` replacement), with fuel. -/
def replaceAllCIFuel (pat rep : List Char) : Nat → List Char → List Char
  | _, [] => []
  | 0, s => s
  | Nat.succ n, c :: rest =>
    if pat.isEmpty then c :: rest
    else if isPrefixCI pat (c :: rest) then
      rep ++ replaceAllCIFuel pat rep n (List.drop (pat.length - 1) rest)
    else c :: replaceAllCIFuel pat rep n rest

/-- Case-insensitive global replacement of a literal pattern. -/
def replaceAllCI (pat rep s : List Char) : List Char :=
  replaceAllCIFuel pat rep s.length s

/-- Head-anchored match of `/CREATE\s+PROCEDURE/i`; returns the remainder
after the match. -/
def matchCreateProcAt (s : List Char) : Option (List Char) :=
  if isPrefixCI "create".data s then
    let s1 := s.drop 6
    let ws := s1.takeWhile isJsWs
    if ws.isEmpty then none
    else if isPrefixCI "procedure".data (s1.drop ws.length) then
      some ((s1.drop ws.length).drop 9)
    else none
  else none

/-- Replace the first occurrence of `/CREATE\s+PROCEDURE/i` by the literal
`CREATE PROCEDURE`. -/
def replaceFirstCreateProc : List Char → List Char
  | [] => []
  | c :: rest =>
    match matchCreateProcAt (c :: rest) with
    | some rem => "CREATE PROCEDURE".data ++ rem
    | none => c :: replaceFirstCreateProc rest

/-- `rewriteForProductionSchema`: replace every (case-insensitive)
occurrence of `<draftSchema>.` by `<schema>.`, then normalise the first
`CREATE\s+PROCEDURE`. -/
def rewriteForProductionSchema (draftSchema schema : String)
    (definition : String) : String :=
  let s1 := replaceAllCI (draftSchema ++ ".").data (schema ++ ".").data definition.data
  String.mk (replaceFirstCreateProc s1)

/-- The database statement of `deployDraft` at which the swap transaction
fails, when it fails. -/
inductive SwapFailure where
  | atDrop
  | atCreate
  | atCommit
deriving Repr, DecidableEq

/-- Errors thrown by `deployDraft` / `rollback` (the source throws `Error`
objects; the engine's own message is opaque). -/
inductive DeployError where
  /-- `Draft not found: <draftSchema>.<name>` -/
  | draftNotFound
  /-- an engine error rethrown after the transaction was rolled back -/
  | engineError
  /-- `Transaction not found: ...` thrown by the `catch` block's rollback
  when the transaction had already committed -/
  | rollbackTxnNotFound
  /-- `No version found to rollback to` -/
  | noVersionFound
deriving Repr, DecidableEq

/-- One database-side step of `deployDraft`, for stating ordering
properties. -/
inductive DeployEvent where
  | saveVersionEv (schemaName procName definition : String)
  | beginTxnEv
  | execDropProdEv
  | execCreateProdEv
  | commitEv
  | txnRollbackEv
  | deleteDraftEv
deriving Repr, DecidableEq

/-- Result of `deployDraft` / `rollback`: the database state afterwards, the
error thrown (if any), and the ordered trace of database-side steps. -/
structure DeployOutcome where
  state : DBState
  error : Option DeployError
  trace : List DeployEvent
deriving Repr, DecidableEq

/-- The backup comment `comment || 'Pre-deployment backup'` passed to
`saveVersion` by `deployDraft` (JS truthiness: an empty comment also falls
back to the default). -/
def preDeployComment (comment : Option String) : String :=
  match comment with
  | some c => if c == "" then "Pre-deployment backup" else c
  | none => "Pre-deployment backup"

/-- `SPDraftManager.deployDraft`.

1. read the draft definition (absence throws);
2. read the production definition; if present, `saveVersion` it (comment
   `comment || 'Pre-deployment backup'`, JS truthiness);
3. rewrite the draft definition for the production schema;
4. in one transaction: conditional drop of the production routine, create
   the new one, commit — on failure the transaction is rolled back and the
   engine error is rethrown;
5. only after the commit, delete the draft (a failure there is rethrown
   out of the `catch` block as the `Transaction not found` error of the
   attempted second rollback). -/
def deployDraft (draftSchema : String) (maxVersions : Nat)
    (schema name : String) (comment : Option String)
    (swapFailure : Option SwapFailure) (deleteDraftFails : Bool)
    (st : DBState) : DeployOutcome :=
  match getProc st.procs draftSchema name with
  | none => ⟨st, some .draftNotFound, []⟩
  | some draftDefinition =>
    let backed : DBState × List DeployEvent :=
      match getProc st.procs schema name with
      | some currentDefinition =>
        (⟨st.procs,
          (saveVersion maxVersions schema name currentDefinition
            (some (preDeployComment comment)) st.versions).2⟩,
         [.saveVersionEv schema name currentDefinition])
      | none => (st, [])
    let st1 := backed.1
    let productionDefinition :=
      rewriteForProductionSchema draftSchema schema draftDefinition
    match swapFailure with
    | some .atDrop =>
      ⟨st1, some .engineError, backed.2 ++ [.beginTxnEv, .txnRollbackEv]⟩
    | some .atCreate =>
      ⟨st1, some .engineError,
        backed.2 ++ [.beginTxnEv, .execDropProdEv, .txnRollbackEv]⟩
    | some .atCommit =>
      ⟨st1, some .engineError,
        backed.2 ++ [.beginTxnEv, .execDropProdEv, .execCreateProdEv, .txnRollbackEv]⟩
    | none =>
      let st2 : DBState :=
        ⟨setProc st1.procs schema name productionDefinition, st1.versions⟩
      if deleteDraftFails then
        ⟨st2, some .rollbackTxnNotFound,
          backed.2 ++ [.beginTxnEv, .execDropProdEv, .execCreateProdEv, .commitEv]⟩
      else
        ⟨⟨dropProc st2.procs draftSchema name, st2.versions⟩, none,
          backed.2 ++
            [.beginTxnEv, .execDropProdEv, .execCreateProdEv, .commitEv, .deleteDraftEv]⟩

/-- `SPDraftManager.rollback`.  Resolves the snapshot — note the JS
truthiness test `if (version)`: an explicit version `0` falls back to the
latest —, then drop + recreate inside one transaction; an engine failure
rolls the transaction back and rethrows. -/
def rollback (schema name : String) (version : Option Nat)
    (swapFailure : Option SwapFailure) (st : DBState) : DeployOutcome :=
  let versionToRestore :=
    match version with
    | some v =>
      if v != 0 then VersionManager.getVersion st.versions schema name v
      else VersionManager.getLatestVersion st.versions schema name
    | none => VersionManager.getLatestVersion st.versions schema name
  match versionToRestore with
  | none => ⟨st, some .noVersionFound, []⟩
  | some row =>
    match swapFailure with
    | some .atDrop =>
      ⟨st, some .engineError, [.beginTxnEv, .txnRollbackEv]⟩
    | some .atCreate =>
      ⟨st, some .engineError, [.beginTxnEv, .execDropProdEv, .txnRollbackEv]⟩
    | some .atCommit =>
      ⟨st, some .engineError,
        [.beginTxnEv, .execDropProdEv, .execCreateProdEv, .txnRollbackEv]⟩
    | none =>
      ⟨⟨setProc st.procs schema name row.definition, st.versions⟩, none,
        [.beginTxnEv, .execDropProdEv, .execCreateProdEv, .commitEv]⟩

end SPDraftManager

namespace TransactionManager

/-! ### `TransactionManager` (src/database/transaction-manager.ts)

The registry `activeTransactions : Map<string, Transaction>` is modelled as
a list of entries; only `Active` transactions are registered (a terminal
transaction is deleted from the map).  Engine-level success of a
`COMMIT`/`ROLLBACK` statement is an oracle argument. -/

/-- A registered (hence active) transaction. -/
structure Txn where
  id : String
  startTime : Nat
deriving Repr, DecidableEq

/-- The registry of in-flight transactions. -/
abbrev Registry := List Txn

/-- `activeTransactions.get(id)`. -/
def findTxn (reg : Registry) (id : String) : Option Txn :=
  reg.find? fun t => t.id == id

/-- `activeTransactions.delete(id)`. -/
def removeTxn (reg : Registry) (id : String) : Registry :=
  reg.filter fun t => !(t.id == id)

/-- Errors thrown by `commit`/`rollback`. -/
inductive TMError where
  /-- `Transaction not found: <id>` (unknown or already terminal) -/
  | txnNotFound
  /-- the engine-level statement failed; the error is rethrown -/
  | engineFailed
deriving Repr, DecidableEq

/-- `TransactionManager.commit`: look the transaction up (absence throws),
run the engine commit, and delete the registry entry only after the engine
commit succeeded; an engine failure is rethrown with the entry kept. -/
def commit (engineOk : Bool) (id : String) (reg : Registry) :
    Registry × Option TMError :=
  match findTxn reg id with
  | none => (reg, some .txnNotFound)
  | some _ => if engineOk then (removeTxn reg id, none) else (reg, some .engineFailed)

/-- `TransactionManager.rollback`: same shape as `commit`. -/
def rollback (engineOk : Bool) (id : String) (reg : Registry) :
    Registry × Option TMError :=
  match findTxn reg id with
  | none => (reg, some .txnNotFound)
  | some _ => if engineOk then (removeTxn reg id, none) else (reg, some .engineFailed)

/-- `TRANSACTION_TIMEOUT` (5 minutes, in milliseconds). -/
def TRANSACTION_TIMEOUT : Nat := 300000

/-- The sweep interval of the `setInterval` in the constructor (1 minute). -/
def SWEEP_INTERVAL : Nat := 60000

/-- The age check of the sweep: `now - txn.startTime > TRANSACTION_TIMEOUT`. -/
def expiredIds (timeout now : Nat) (reg : Registry) : List String :=
  (reg.filter fun t => decide (timeout < now - t.startTime)).map (·.id)

/-- The forced rollbacks issued by one sweep, in registry order; each
`this.rollback(id)` rejection is caught (`.catch`) and converted into a log
line, never propagated. -/
def forcedRollbacks (engineOk : String → Bool) (ids : List String)
    (reg : Registry) (logs : List String) : Registry × List String :=
  match ids with
  | [] => (reg, logs)
  | id :: rest =>
    match (rollback (engineOk id) id reg).2 with
    | none => forcedRollbacks engineOk rest (rollback (engineOk id) id reg).1 logs
    | some _ =>
      forcedRollbacks engineOk rest (rollback (engineOk id) id reg).1
        (logs ++ ["Failed to rollback timed out transaction"])

/-- `cleanupTimedOutTransactions` at time `now`.  The age check runs over
the registry `reg` as it was at the start of the tick; the forced rollbacks
then run against the registry after any transactions in
`completedMeanwhile` finished a normal commit/rollback concurrently (such a
forced rollback finds nothing and is caught).  Returns the registry and the
warning log lines of the tick. -/
def cleanupTimedOutTransactions (timeout : Nat) (engineOk : String → Bool)
    (completedMeanwhile : List String) (now : Nat) (reg : Registry) :
    Registry × List String :=
  let current := reg.filter fun t => !(completedMeanwhile.contains t.id)
  forcedRollbacks engineOk (expiredIds timeout now reg) current []

/-- The tick times of the `setInterval` schedule: `c + I, c + 2I, …, c + kI`
for a manager constructed at time `c`. -/
def sweepTimes (c interval k : Nat) : List Nat :=
  (List.range k).map fun i => c + (i + 1) * interval

/-- Run the sweep at each given tick time in order, with no intervening
commit/rollback calls. -/
def runSweeps (timeout : Nat) (engineOk : String → Bool)
    (times : List Nat) (reg : Registry) : Registry :=
  times.foldl (fun r now => (cleanupTimedOutTransactions timeout engineOk [] now r).1) reg

end TransactionManager

namespace AuditLogger

/-! ### `AuditLogger` (src/security/audit-logger.ts)

`JSON.stringify` is an external library function and enters the model as a
serialisation parameter.  Entries pushed by concurrent `log` calls while the
`fs.appendFile` of a flush is awaited are the `arrivedDuringWrite`
argument. -/

/-- An audit entry (`AuditEntry` from src/types; the opaque `details`
payload is folded into `details : String`). -/
structure AuditEntry where
  timestamp : Nat
  operation : String
  user : String
  details : String
  success : Bool
  error : Option String
deriving Repr, DecidableEq

/-- Logger state: the in-memory buffer, the lines appended to the dated log
file so far, and the internal error log. -/
structure AuditState where
  buffer : List AuditEntry
  fileLines : List String
  errorLogs : List String
deriving Repr, DecidableEq

/-- `AuditLogger.flush`: nothing to do on an empty buffer; otherwise take
the whole buffer as the batch, append its serialised lines to the log file,
and on a write failure log the error and `unshift` the batch back to the
front of the buffer (in front of entries that arrived during the write). -/
def flush (stringify : AuditEntry → String) (writeOk : Bool)
    (arrivedDuringWrite : List AuditEntry) (st : AuditState) : AuditState :=
  if st.buffer.isEmpty then st
  else
    let entries := st.buffer
    let afterTake : AuditState := { st with buffer := arrivedDuringWrite }
    if writeOk then
      { afterTake with fileLines := afterTake.fileLines ++ entries.map stringify }
    else
      { afterTake with
          buffer := entries ++ afterTake.buffer,
          errorLogs := afterTake.errorLogs ++ ["Failed to write audit log"] }

/-- `AuditLogger.log`: append the entry to the buffer and flush when the
size threshold is reached.  `flush` never rejects, so neither does `log`. -/
def log (stringify : AuditEntry → String) (writeOk : Bool) (bufferSize : Nat)
    (arrivedDuringWrite : List AuditEntry) (entry : AuditEntry)
    (st : AuditState) : AuditState :=
  let st1 : AuditState := { st with buffer := st.buffer ++ [entry] }
  if bufferSize ≤ st1.buffer.length then
    flush stringify writeOk arrivedDuringWrite st1
  else st1

end AuditLogger

namespace VersionManager

/-! ### Interleaving model of concurrent `saveVersion` calls

`saveVersion` performs three awaited database statements: the `MAX+1`
scalar read, the insert, and the cleanup delete.  Nothing in the source
serialises the read and the insert, so two in-flight calls may interleave
at any `await` boundary.  A thread records the version it read in
`localVersion` (the value it will insert and return). -/

/-- The remaining awaited statements of one `saveVersion` call. -/
inductive SaveAction where
  | readMax
  | insertRow
  | cleanup
deriving Repr, DecidableEq

/-- One in-flight `saveVersion` call. -/
structure SaverThread where
  schemaName : String
  procName : String
  definition : String
  comment : Option String
  localVersion : Option Nat
  pending : List SaveAction
deriving Repr, DecidableEq

/-- A fresh `saveVersion` call. -/
def initSaver (sch nm definition : String) (comment : Option String) : SaverThread :=
  ⟨sch, nm, definition, comment, none, [.readMax, .insertRow, .cleanup]⟩

/-- Execute the next awaited statement of one `saveVersion` call against the
shared version table. -/
def stepSaver (maxVersions : Nat) (t : SaverThread) (vs : List VersionRow) :
    SaverThread × List VersionRow :=
  match t.pending with
  | [] => (t, vs)
  | a :: rest =>
    match a with
    | .readMax =>
      ({ t with localVersion := some (nextVersion vs t.schemaName t.procName),
                pending := rest }, vs)
    | .insertRow =>
      ({ t with pending := rest },
       vs ++ [⟨t.schemaName, t.procName, t.localVersion.getD 0, t.definition,
               normComment t.comment⟩])
    | .cleanup =>
      ({ t with pending := rest },
       cleanupOldVersions maxVersions t.schemaName t.procName vs)

/-- Run two concurrent `saveVersion` calls under a schedule: `true` steps
the first call, `false` the second. -/
def runTwo (maxVersions : Nat) (sched : List Bool) (tA tB : SaverThread)
    (vs : List VersionRow) : SaverThread × SaverThread × List VersionRow :=
  match sched with
  | [] => (tA, tB, vs)
  | true :: s =>
    let p := stepSaver maxVersions tA vs
    runTwo maxVersions s p.1 tB p.2
  | false :: s =>
    let p := stepSaver maxVersions tB vs
    runTwo maxVersions s tA p.1 p.2

/-- Issue `saveVersion` calls one after another (no concurrency), returning
the version numbers in call order. -/
def seqSaves (maxVersions : Nat) (sch nm : String) (defs : List String)
    (vs : List VersionRow) : List Nat × List VersionRow :=
  match defs with
  | [] => ([], vs)
  | d :: ds =>
    let p := saveVersion maxVersions sch nm d none vs
    let q := seqSaves maxVersions sch nm ds p.2
    (p.1 :: q.1, q.2)

end VersionManager

/-! ## Spec-side definition for the classification claim

The spec describes classification as happening "after trimming whitespace
and comments"; the following definition renders that wording so it can be
compared with `SQLValidator.isWriteQuery` (which only trims whitespace). -/

/-- Drop the rest of a `--` line comment (up to the next newline). -/
def dropLineComment (s : List Char) : List Char :=
  s.dropWhile (· != '\n')

/-- Drop the rest of a block comment (up to and including the closing
marker). -/
def dropBlockComment : List Char → List Char
  | [] => []
  | '*' :: '/' :: rest => rest
  | _ :: rest => dropBlockComment rest

/-- Fuelled worker for `stripWsAndComments`. -/
def stripWsAndCommentsFuel : Nat → List Char → List Char
  | 0, s => s
  | n + 1, s =>
    let s1 := s.dropWhile isJsWs
    if "--".data.isPrefixOf s1 then
      stripWsAndCommentsFuel n (dropLineComment (s1.drop 2))
    else if "/*".data.isPrefixOf s1 then
      stripWsAndCommentsFuel n (dropBlockComment (s1.drop 2))
    else s1

/-- Per the spec's words for the classification claim: remove leading
whitespace, `--` line comments and `/* ... */` block comments, repeatedly,
exposing the statement's leading verb. -/
def stripWsAndComments (s : List Char) : List Char :=
  stripWsAndCommentsFuel s.length s

/-! ## General lemmas about the embedded operations -/

theorem getProc_cons (p : (String × String) × String) (ps : ProcMap)
    (sch nm : String) :
    getProc (p :: ps) sch nm =
      cond (p.1.1 == sch && p.1.2 == nm) (some p.2) (getProc ps sch nm) := by
  cases hb : (p.1.1 == sch && p.1.2 == nm) with
  | true =>
    rw [cond_true]
    unfold getProc
    rw [List.find?_cons_of_pos]
    · rfl
    · exact hb
  | false =>
    rw [cond_false]
    unfold getProc
    rw [List.find?_cons_of_neg]
    intro hc
    have hc' : (p.1.1 == sch && p.1.2 == nm) = true := hc
    rw [hb] at hc'
    exact Bool.false_ne_true hc'

theorem dropProc_cons (p : (String × String) × String) (ps : ProcMap)
    (sch nm : String) :
    dropProc (p :: ps) sch nm =
      cond (p.1.1 == sch && p.1.2 == nm) (dropProc ps sch nm)
        (p :: dropProc ps sch nm) := by
  cases hb : (p.1.1 == sch && p.1.2 == nm) with
  | true =>
    rw [cond_true]
    unfold dropProc
    rw [List.filter_cons, if_neg]
    intro hc
    have hc' : (!(p.1.1 == sch && p.1.2 == nm)) = true := hc
    rw [hb] at hc'
    exact Bool.false_ne_true hc'
  | false =>
    rw [cond_false]
    unfold dropProc
    rw [List.filter_cons, if_pos]
    show (!(p.1.1 == sch && p.1.2 == nm)) = true
    rw [hb]
    decide

theorem find?_dropProc_self (ps : ProcMap) (sch nm : String) :
    List.find? (fun p => p.1.1 == sch && p.1.2 == nm) (dropProc ps sch nm) = none := by
  apply List.find?_eq_none.mpr
  intro x hx
  have hf := List.of_mem_filter hx
  simp only [Bool.not_eq_true'] at hf
  intro hc
  have hc' : (x.1.1 == sch && x.1.2 == nm) = true := hc
  rw [hf] at hc'
  exact Bool.false_ne_true hc'

theorem getProc_dropProc_self (ps : ProcMap) (sch nm : String) :
    getProc (dropProc ps sch nm) sch nm = none := by
  unfold getProc
  rw [find?_dropProc_self]
  rfl

theorem getProc_dropProc_ne (ps : ProcMap) (sch' nm' sch nm : String)
    (hne : ¬(sch' = sch ∧ nm' = nm)) :
    getProc (dropProc ps sch' nm') sch nm = getProc ps sch nm := by
  induction ps with
  | nil => rfl
  | cons p ps ih =>
    rw [dropProc_cons]
    cases hd : (p.1.1 == sch' && p.1.2 == nm') with
    | true =>
      rw [cond_true, getProc_cons]
      rw [Bool.and_eq_true] at hd
      have hm : (p.1.1 == sch && p.1.2 == nm) = false := by
        cases hc : (p.1.1 == sch && p.1.2 == nm) with
        | false => rfl
        | true =>
          rw [Bool.and_eq_true] at hc
          exact absurd ⟨(eq_of_beq hd.1).symm.trans (eq_of_beq hc.1),
            (eq_of_beq hd.2).symm.trans (eq_of_beq hc.2)⟩ hne
      rw [hm, cond_false, ih]
    | false =>
      rw [cond_false, getProc_cons, getProc_cons, ih]

theorem getProc_setProc_self (ps : ProcMap) (sch nm d : String) :
    getProc (setProc ps sch nm d) sch nm = some d := by
  unfold setProc getProc
  rw [List.find?_append, find?_dropProc_self]
  rw [List.find?_cons_of_pos]
  · rfl
  · show ((sch, nm).1 == sch && (sch, nm).2 == nm) = true
    simp

theorem getProc_setProc_ne (ps : ProcMap) (sch' nm' d sch nm : String)
    (hne : ¬(sch' = sch ∧ nm' = nm)) :
    getProc (setProc ps sch' nm' d) sch nm = getProc ps sch nm := by
  unfold setProc getProc
  rw [List.find?_append]
  have h2 : List.find? (fun p => p.1.1 == sch && p.1.2 == nm)
      [((sch', nm'), d)] = none := by
    rw [List.find?_cons_of_neg]
    · rfl
    · intro hc
      have hc' : ((sch', nm').1 == sch && (sch', nm').2 == nm) = true := hc
      rw [Bool.and_eq_true] at hc'
      exact hne ⟨eq_of_beq hc'.1, eq_of_beq hc'.2⟩
  rw [h2]
  have h3 := getProc_dropProc_ne ps sch' nm' sch nm hne
  unfold getProc at h3
  cases hf : List.find? (fun p => p.1.1 == sch && p.1.2 == nm) (dropProc ps sch' nm') with
  | none =>
    rw [hf] at h3
    rw [← h3]
    rfl
  | some v =>
    rw [hf] at h3
    rw [← h3]
    rfl

section VersionStoreLemmas

open VersionManager

theorem le_maxVer (rows : List VersionRow) (r : VersionRow) (hr : r ∈ rows) :
    r.version ≤ maxVer rows := by
  induction rows with
  | nil => cases hr
  | cons a l ih =>
    rcases List.mem_cons.mp hr with h | h
    · subst h
      exact Nat.le_max_left _ _
    · exact le_trans (ih h) (Nat.le_max_right _ _)

theorem rowsFor_append_key (vs : List VersionRow) (sch nm : String)
    (x : VersionRow) (hx : (x.schemaName == sch && x.procName == nm) = true) :
    rowsFor (vs ++ [x]) sch nm = rowsFor vs sch nm ++ [x] := by
  unfold rowsFor
  rw [List.filter_append]
  congr 1
  rw [List.filter_cons, if_pos hx]
  rfl

theorem countGreater_newmax (rows : List VersionRow) (x : VersionRow)
    (hgt : ∀ r ∈ rows, r.version < x.version) :
    countGreater (rows ++ [x]) x.version = 0 := by
  unfold countGreater
  rw [List.filter_append]
  have h1 : rows.filter (fun r => decide (x.version < r.version)) = [] := by
    apply List.filter_eq_nil_iff.mpr
    intro r hr hc
    have hc' : x.version < r.version := of_decide_eq_true hc
    exact absurd (hgt r hr) (Nat.lt_asymm hc')
  have h2 : List.filter (fun r => decide (x.version < r.version)) [x] = [] := by
    rw [List.filter_cons, if_neg]
    · rfl
    · intro hc
      exact absurd (of_decide_eq_true hc) (lt_irrefl _)
  rw [h1, h2]
  rfl

theorem foldr_maxVer_init (l : List VersionRow) (b : Nat) :
    l.foldr (fun r m => max r.version m) b =
      max (l.foldr (fun r m => max r.version m) 0) b := by
  induction l with
  | nil => simp
  | cons a t ih =>
    rw [List.foldr_cons, List.foldr_cons, ih, ← Nat.max_assoc]

theorem maxVer_append_single (l : List VersionRow) (x : VersionRow) :
    maxVer (l ++ [x]) = max (maxVer l) x.version := by
  unfold maxVer
  rw [List.foldr_append]
  have h0 : List.foldr (fun r m => max r.version m) 0 [x] = x.version := by
    rw [List.foldr_cons, List.foldr_nil, Nat.max_zero]
  rw [h0, foldr_maxVer_init]

theorem maxVer_filter_le (p : VersionRow → Bool) (l : List VersionRow) :
    maxVer (l.filter p) ≤ maxVer l := by
  induction l with
  | nil => exact le_refl _
  | cons a t ih =>
    rw [List.filter_cons]
    by_cases h : p a = true
    · rw [if_pos h]
      show max a.version (maxVer (t.filter p)) ≤ max a.version (maxVer t)
      exact max_le_max (le_refl _) ih
    · rw [if_neg h]
      exact le_trans ih (Nat.le_max_right _ _)

theorem rowsFor_cleanupOldVersions (N : Nat) (sch nm : String)
    (vs : List VersionRow) :
    rowsFor (cleanupOldVersions N sch nm vs) sch nm =
      (rowsFor vs sch nm).filter
        (fun r => decide (countGreater (rowsFor vs sch nm) r.version < N)) := by
  simp only [cleanupOldVersions]
  unfold rowsFor
  rw [List.filter_filter, List.filter_filter]
  apply List.filter_congr
  intro r _
  cases hk : (r.schemaName == sch && r.procName == nm)
  · simp
  · simp

theorem rowsFor_saveVersion (N : Nat) (hN : 1 ≤ N) (sch nm d : String)
    (c : Option String) (vs : List VersionRow) :
    rowsFor (saveVersion N sch nm d c vs).2 sch nm =
      (rowsFor vs sch nm).filter
        (fun r => decide (countGreater (rowsFor vs sch nm ++
            [⟨sch, nm, nextVersion vs sch nm, d, normComment c⟩]) r.version < N))
      ++ [⟨sch, nm, nextVersion vs sch nm, d, normComment c⟩] := by
  have hkey : ((⟨sch, nm, nextVersion vs sch nm, d, normComment c⟩ :
      VersionRow).schemaName == sch &&
      (⟨sch, nm, nextVersion vs sch nm, d, normComment c⟩ :
      VersionRow).procName == nm) = true := by
    simp
  have hgt : ∀ r ∈ rowsFor vs sch nm,
      r.version < (⟨sch, nm, nextVersion vs sch nm, d, normComment c⟩ :
        VersionRow).version := by
    intro r hr
    exact Nat.lt_succ_of_le (le_maxVer _ r hr)
  show rowsFor (cleanupOldVersions N sch nm
      (vs ++ [⟨sch, nm, nextVersion vs sch nm, d, normComment c⟩])) sch nm = _
  rw [rowsFor_cleanupOldVersions, rowsFor_append_key vs sch nm _ hkey,
    List.filter_append]
  congr 1
  rw [List.filter_cons, if_pos]
  · rfl
  · rw [countGreater_newmax _ _ hgt]
    exact decide_eq_true hN

theorem filtered_rowsFor_lt_new (N : Nat) (sch nm d : String)
    (c : Option String) (vs : List VersionRow) (r : VersionRow)
    (hr : r ∈ (rowsFor vs sch nm).filter
        (fun r => decide (countGreater (rowsFor vs sch nm ++
            [⟨sch, nm, nextVersion vs sch nm, d, normComment c⟩]) r.version < N))) :
    r.version < nextVersion vs sch nm := by
  have hm := (List.mem_filter.mp hr).1
  exact Nat.lt_succ_of_le (le_maxVer _ r hm)

theorem latestFold_append (l : List VersionRow) (x : VersionRow)
    (acc : Option VersionRow)
    (hl : ∀ r ∈ l, r.version < x.version)
    (hacc : ∀ b, acc = some b → b.version < x.version) :
    List.foldl
      (fun acc r =>
        match acc with
        | none => some r
        | some b => if b.version < r.version then some r else some b)
      acc (l ++ [x]) = some x := by
  induction l generalizing acc with
  | nil =>
    cases acc with
    | none => rfl
    | some b =>
      have hb := hacc b rfl
      show (if b.version < x.version then some x else some b) = some x
      rw [if_pos hb]
  | cons a t ih =>
    rw [List.cons_append, List.foldl_cons]
    apply ih
    · intro r hr
      exact hl r (List.mem_cons_of_mem _ hr)
    · intro b hb
      cases acc with
      | none =>
        have hab : a = b := by
          have : some a = some b := hb
          exact Option.some.inj this
        subst hab
        exact hl a (List.mem_cons_self _ _)
      | some b0 =>
        by_cases hba : b0.version < a.version
        · have : some a = some b := by
            have h' : (if b0.version < a.version then some a else some b0) = some b := hb
            rwa [if_pos hba] at h'
          rw [← Option.some.inj this]
          exact hl a (List.mem_cons_self _ _)
        · have : some b0 = some b := by
            have h' : (if b0.version < a.version then some a else some b0) = some b := hb
            rwa [if_neg hba] at h'
          rw [← Option.some.inj this]
          exact hacc b0 rfl

theorem getLatestVersion_saveVersion (N : Nat) (hN : 1 ≤ N)
    (sch nm d : String) (c : Option String) (vs : List VersionRow) :
    getLatestVersion (saveVersion N sch nm d c vs).2 sch nm =
      some ⟨sch, nm, nextVersion vs sch nm, d, normComment c⟩ := by
  unfold getLatestVersion
  rw [rowsFor_saveVersion N hN sch nm d c vs]
  apply latestFold_append
  · intro r hr
    exact filtered_rowsFor_lt_new N sch nm d c vs r hr
  · intro b hb
    exact Option.noConfusion hb

theorem nextVersion_saveVersion (N : Nat) (hN : 1 ≤ N)
    (sch nm d : String) (c : Option String) (vs : List VersionRow) :
    nextVersion (saveVersion N sch nm d c vs).2 sch nm =
      nextVersion vs sch nm + 1 := by
  unfold nextVersion
  rw [rowsFor_saveVersion N hN sch nm d c vs, maxVer_append_single]
  have h1 := maxVer_filter_le
    (fun r => decide (countGreater (rowsFor vs sch nm ++
      [⟨sch, nm, nextVersion vs sch nm, d, normComment c⟩]) r.version < N))
    (rowsFor vs sch nm)
  have h2 : maxVer (rowsFor vs sch nm) ≤
      (⟨sch, nm, nextVersion vs sch nm, d, normComment c⟩ : VersionRow).version := by
    show maxVer (rowsFor vs sch nm) ≤ nextVersion vs sch nm
    exact Nat.le_succ _
  rw [Nat.max_eq_right (le_trans h1 h2)]
  rfl

theorem saveVersion_mem_new (N : Nat) (hN : 1 ≤ N) (sch nm d : String)
    (c : Option String) (vs : List VersionRow) :
    (⟨sch, nm, nextVersion vs sch nm, d, normComment c⟩ : VersionRow) ∈
      (saveVersion N sch nm d c vs).2 := by
  have h := rowsFor_saveVersion N hN sch nm d c vs
  have hx : (⟨sch, nm, nextVersion vs sch nm, d, normComment c⟩ : VersionRow) ∈
      rowsFor (saveVersion N sch nm d c vs).2 sch nm := by
    rw [h]
    exact List.mem_append_right _ (List.mem_cons_self _ _)
  exact (List.mem_filter.mp hx).1

theorem saveVersion_subset (N : Nat) (sch nm d : String)
    (c : Option String) (vs : List VersionRow) :
    ∀ r ∈ (saveVersion N sch nm d c vs).2,
      r ∈ vs ∨ r = ⟨sch, nm, nextVersion vs sch nm, d, normComment c⟩ := by
  intro r hr
  have hr1 : r ∈ vs ++ [⟨sch, nm, nextVersion vs sch nm, d, normComment c⟩] :=
    (List.mem_filter.mp hr).1
  rcases List.mem_append.mp hr1 with h | h
  · exact Or.inl h
  · exact Or.inr (List.mem_singleton.mp h)

end VersionStoreLemmas

/-! ## Admission-gate claims -/

theorem containsWholeWordCI_empty (kw : String) :
    SQLValidator.containsWholeWordCI kw "" = false := by
  have hr : List.range ("".data.length + 1) = [0] := rfl
  have hb : SQLValidator.boundaryAt "".data 0 = false := rfl
  simp only [SQLValidator.containsWholeWordCI, hr, List.any_cons, List.any_nil,
    hb, Bool.and_false, Bool.false_and, Bool.or_false]

theorem validate_empty (blockedKeywords : List String) :
    SQLValidator.validate blockedKeywords "" = { valid := true, errors := [] } := by
  have hsus : SQLValidator.containsSuspiciousPattern "" = false := rfl
  have hdyn : SQLValidator.containsUnsafeDynamicSQL "" = false := rfl
  have hfil : blockedKeywords.filter
      (fun kw => SQLValidator.containsWholeWordCI kw "") = [] := by
    apply List.filter_eq_nil_iff.mpr
    intro kw _ hc
    rw [containsWholeWordCI_empty] at hc
    exact Bool.false_ne_true hc
  simp [SQLValidator.validate, hsus, hdyn, hfil]

/-- C4 counterexample: with the default blocked-keyword configuration
(`DROP DATABASE,xp_cmdshell`), `validate` on the empty input returns
`valid = true` with no errors — not `valid = false` with a specific
reason, as the claim states. -/
theorem validate_empty_input_counterexample :
    SQLValidator.validate ["DROP DATABASE", "xp_cmdshell"] "" =
      { valid := true, errors := [] } := by
  decide

/-- C4 (amended): for every configuration and every input string,
`validate` returns a `ValidationResult` (it is a total function), with
`valid` true exactly when the error list is empty; in particular the empty
input yields `valid = true` with no errors, because it matches no blocked
keyword, no suspicious pattern and no unsafe dynamic SQL. -/
theorem validate_total_result :
    (∀ (blockedKeywords : List String) (sql : String),
        ((SQLValidator.validate blockedKeywords sql).valid = true ↔
          (SQLValidator.validate blockedKeywords sql).errors = []))
    ∧ ∀ blockedKeywords : List String,
        SQLValidator.validate blockedKeywords "" =
          { valid := true, errors := [] } := by
  constructor
  · intro bk sql
    exact List.isEmpty_iff
  · exact validate_empty

theorem select_prefix_not_write (n : List Char)
    (h : List.isPrefixOf ['S', 'E', 'L', 'E', 'C', 'T'] n = true) :
    (SQLValidator.writeKeywords.any fun kw => kw.data.isPrefixOf n) = false := by
  match n with
  | [] => exact absurd h (by decide)
  | c :: t =>
    have h' : (('S' == c) && List.isPrefixOf ['E', 'L', 'E', 'C', 'T'] t) = true := h
    have hc : ('S' == c) = true := (Bool.and_eq_true _ _ ▸ h').1
    have hcs : c = 'S' := (eq_of_beq hc).symm
    subst hcs
    rfl

/-- C5 counterexample: for the statement `--c\nINSERT INTO t DEFAULT
VALUES`, the leading verb after trimming whitespace *and comments* is
`insert`, yet `isWriteQuery` returns `false` (Read): the code only trims
whitespace (`sql.trim()`), never comments, so a leading line comment makes
a write statement classify as Read. -/
theorem isWriteQuery_comment_counterexample :
    "insert".data.isPrefixOf
        ((stripWsAndComments ("--c\nINSERT INTO t DEFAULT VALUES").data).map
          Char.toLower) = true
    ∧ SQLValidator.isWriteQuery "--c\nINSERT INTO t DEFAULT VALUES" = false := by
  constructor
  · decide
  · decide

/-- C5 (amended): classification is by leading-verb inspection after
trimming *whitespace only* (comments are not stripped): every statement
whose whitespace-trimmed, uppercased text starts with one of
insert/update/delete/merge/truncate/create/alter/drop is classified Write
(`isWriteQuery = true`), and every statement whose trimmed text starts
with `select` is classified Read (`isWriteQuery = false`). -/
theorem isWriteQuery_amended :
    (∀ kw ∈ SQLValidator.writeKeywords, ∀ sql : String,
        kw.data.isPrefixOf ((trimChars sql.data).map Char.toUpper) = true →
        SQLValidator.isWriteQuery sql = true)
    ∧ (∀ sql : String,
        "SELECT".data.isPrefixOf ((trimChars sql.data).map Char.toUpper) = true →
        SQLValidator.isWriteQuery sql = false) := by
  constructor
  · intro kw hkw sql h
    show (SQLValidator.writeKeywords.any fun k =>
        k.data.isPrefixOf ((trimChars sql.data).map Char.toUpper)) = true
    exact List.any_eq_true.mpr ⟨kw, hkw, h⟩
  · intro sql h
    show (SQLValidator.writeKeywords.any fun k =>
        k.data.isPrefixOf ((trimChars sql.data).map Char.toUpper)) = false
    exact select_prefix_not_write _ h

/-- Witness for C5's amended theorem at concrete inputs. -/
theorem isWriteQuery_amended_witness :
    SQLValidator.isWriteQuery " insert into t values (1)" = true
    ∧ SQLValidator.isWriteQuery " SELECT 1" = false :=
  ⟨isWriteQuery_amended.1 "INSERT" (by decide) " insert into t values (1)"
      (by decide),
   isWriteQuery_amended.2 " SELECT 1" (by decide)⟩

/-! ## Transaction-registry and audit-sink claims -/

theorem findTxn_removeTxn (reg : TransactionManager.Registry) (id : String) :
    TransactionManager.findTxn (TransactionManager.removeTxn reg id) id = none := by
  apply List.find?_eq_none.mpr
  intro t ht hc
  have hf := List.of_mem_filter ht
  rw [Bool.not_eq_true'] at hf
  have hc' : (t.id == id) = true := hc
  rw [hf] at hc'
  exact Bool.false_ne_true hc'

/-- C10: for `commit`/`rollback` on a registered transaction, an
engine-level failure of the COMMIT/ROLLBACK statement is rethrown and
leaves the registry entry in place (the transaction stays registered under
its id); the entry is deleted only when the engine operation succeeds. -/
theorem commit_rollback_engine_failure (id : String)
    (reg : TransactionManager.Registry) (t : TransactionManager.Txn)
    (h : TransactionManager.findTxn reg id = some t) :
    (TransactionManager.commit false id reg =
        (reg, some TransactionManager.TMError.engineFailed)
      ∧ TransactionManager.rollback false id reg =
        (reg, some TransactionManager.TMError.engineFailed))
    ∧ (TransactionManager.findTxn (TransactionManager.commit true id reg).1 id = none
      ∧ TransactionManager.findTxn (TransactionManager.rollback true id reg).1 id = none) := by
  unfold TransactionManager.commit TransactionManager.rollback
  rw [h]
  exact ⟨⟨rfl, rfl⟩, findTxn_removeTxn reg id, findTxn_removeTxn reg id⟩

/-- Witness for C10 at a concrete registry. -/
theorem commit_rollback_engine_failure_witness :
    TransactionManager.findTxn [⟨"t1", 5⟩] "t1" =
      some (⟨"t1", 5⟩ : TransactionManager.Txn)
    ∧ TransactionManager.commit false "t1" [⟨"t1", 5⟩] =
        ([⟨"t1", 5⟩], some TransactionManager.TMError.engineFailed)
    ∧ TransactionManager.findTxn
        (TransactionManager.commit true "t1" [⟨"t1", 5⟩]).1 "t1" = none :=
  ⟨by decide,
   (commit_rollback_engine_failure "t1" [⟨"t1", 5⟩] ⟨"t1", 5⟩ (by decide)).1.1,
   (commit_rollback_engine_failure "t1" [⟨"t1", 5⟩] ⟨"t1", 5⟩ (by decide)).2.1⟩

/-- C9: if the durable write of an audit flush fails, the whole batch is
returned to the front of the buffer (ahead of entries that arrived during
the write), the log file is untouched, and the failure becomes an internal
error-log line only — `flush` (and hence `log`, the caller-facing `record`
path) never propagates it, and no entry is ever dropped (in particular an
entry just logged is still in the buffer afterwards). -/
theorem audit_flush_failure_requeues
    (stringify : AuditLogger.AuditEntry → String)
    (arrived : List AuditLogger.AuditEntry) (bufferSize : Nat)
    (st : AuditLogger.AuditState) (h : st.buffer ≠ []) :
    AuditLogger.flush stringify false arrived st =
      { buffer := st.buffer ++ arrived, fileLines := st.fileLines,
        errorLogs := st.errorLogs ++ ["Failed to write audit log"] }
    ∧ ∀ (entry : AuditLogger.AuditEntry) (st2 : AuditLogger.AuditState),
        entry ∈ (AuditLogger.log stringify false bufferSize arrived entry st2).buffer := by
  constructor
  · unfold AuditLogger.flush
    rw [if_neg]
    · rfl
    · intro hc
      exact h (List.isEmpty_iff.mp hc)
  · intro entry st2
    unfold AuditLogger.log
    by_cases hb : bufferSize ≤ (st2.buffer ++ [entry]).length
    · rw [if_pos hb]
      unfold AuditLogger.flush
      rw [if_neg (by simp)]
      show entry ∈ (st2.buffer ++ [entry]) ++ arrived
      exact List.mem_append_left _ (List.mem_append_right _ (List.mem_singleton.mpr rfl))
    · rw [if_neg hb]
      show entry ∈ st2.buffer ++ [entry]
      exact List.mem_append_right _ (List.mem_singleton.mpr rfl)

/-- Witness for C9 at a concrete logger state. -/
theorem audit_flush_failure_requeues_witness :
    (([⟨0, "op", "u", "d", true, none⟩] : List AuditLogger.AuditEntry) ≠ [])
    ∧ AuditLogger.flush (fun _ => "line") false []
        ⟨[⟨0, "op", "u", "d", true, none⟩], [], []⟩ =
      { buffer := [⟨0, "op", "u", "d", true, none⟩], fileLines := [],
        errorLogs := ["Failed to write audit log"] }
    ∧ (⟨0, "op", "u", "d", true, none⟩ : AuditLogger.AuditEntry) ∈
        (AuditLogger.log (fun _ => "line") false 1 []
          ⟨0, "op", "u", "d", true, none⟩ ⟨[], [], []⟩).buffer :=
  ⟨by decide,
   (audit_flush_failure_requeues (fun _ => "line") [] 1
      ⟨[⟨0, "op", "u", "d", true, none⟩], [], []⟩ (by decide)).1,
   (audit_flush_failure_requeues (fun _ => "line") [] 1
      ⟨[⟨0, "op", "u", "d", true, none⟩], [], []⟩ (by decide)).2
     ⟨0, "op", "u", "d", true, none⟩ ⟨[], [], []⟩⟩

/-! ## Lifecycle-orchestrator claims -/

/-- C1: if `deployDraft` fails during the swap transaction (at the drop,
the create, or the commit), the transaction is rolled back: the engine
error is rethrown, the whole procedure catalog — in particular the
production routine's definition — is byte-identical to its pre-deploy
state, the draft still exists, and the version table equals exactly its
state right after the pre-deploy backup (a backup that was saved is left
untouched; if no production definition existed, no backup was taken and
the table is unchanged). -/
theorem deployDraft_swap_failure_atomic
    (draftSchema : String) (maxVersions : Nat) (schema name : String)
    (comment : Option String) (fp : SPDraftManager.SwapFailure) (st : DBState)
    (draftDef : String)
    (hdraft : getProc st.procs draftSchema name = some draftDef) :
    (SPDraftManager.deployDraft draftSchema maxVersions schema name comment
        (some fp) false st).error = some SPDraftManager.DeployError.engineError
    ∧ (SPDraftManager.deployDraft draftSchema maxVersions schema name comment
        (some fp) false st).state.procs = st.procs
    ∧ getProc (SPDraftManager.deployDraft draftSchema maxVersions schema name comment
        (some fp) false st).state.procs draftSchema name = some draftDef
    ∧ (∀ cur, getProc st.procs schema name = some cur →
        (SPDraftManager.deployDraft draftSchema maxVersions schema name comment
          (some fp) false st).state.versions =
          (VersionManager.saveVersion maxVersions schema name cur
            (some (SPDraftManager.preDeployComment comment)) st.versions).2)
    ∧ (getProc st.procs schema name = none →
        (SPDraftManager.deployDraft draftSchema maxVersions schema name comment
          (some fp) false st).state.versions = st.versions) := by
  unfold SPDraftManager.deployDraft
  rw [hdraft]
  cases hcur : getProc st.procs schema name with
  | none =>
    cases fp <;>
      exact ⟨rfl, rfl, hdraft,
        fun cur hc => Option.noConfusion hc, fun _ => rfl⟩
  | some cur0 =>
    cases fp <;>
      refine ⟨rfl, rfl, hdraft, ?_, fun hc => Option.noConfusion hc⟩ <;>
      · intro cur hc
        rw [← Option.some.inj hc]

/-- Witness for C1 at a concrete database state. -/
theorem deployDraft_swap_failure_atomic_witness :
    getProc [(("dbo_draft", "P"), "CREATE PROCEDURE dbo_draft.P AS SELECT 1"),
        (("dbo", "P"), "CREATE PROCEDURE dbo.P AS SELECT 0")]
      "dbo_draft" "P" = some "CREATE PROCEDURE dbo_draft.P AS SELECT 1"
    ∧ (SPDraftManager.deployDraft "dbo_draft" 5 "dbo" "P" none
        (some SPDraftManager.SwapFailure.atCreate) false
        ⟨[(("dbo_draft", "P"), "CREATE PROCEDURE dbo_draft.P AS SELECT 1"),
          (("dbo", "P"), "CREATE PROCEDURE dbo.P AS SELECT 0")], []⟩).error =
      some SPDraftManager.DeployError.engineError
    ∧ (SPDraftManager.deployDraft "dbo_draft" 5 "dbo" "P" none
        (some SPDraftManager.SwapFailure.atCreate) false
        ⟨[(("dbo_draft", "P"), "CREATE PROCEDURE dbo_draft.P AS SELECT 1"),
          (("dbo", "P"), "CREATE PROCEDURE dbo.P AS SELECT 0")], []⟩).state.procs =
      [(("dbo_draft", "P"), "CREATE PROCEDURE dbo_draft.P AS SELECT 1"),
        (("dbo", "P"), "CREATE PROCEDURE dbo.P AS SELECT 0")]
    ∧ (SPDraftManager.deployDraft "dbo_draft" 5 "dbo" "P" none
        (some SPDraftManager.SwapFailure.atCreate) false
        ⟨[(("dbo_draft", "P"), "CREATE PROCEDURE dbo_draft.P AS SELECT 1"),
          (("dbo", "P"), "CREATE PROCEDURE dbo.P AS SELECT 0")], []⟩).state.versions =
      (VersionManager.saveVersion 5 "dbo" "P" "CREATE PROCEDURE dbo.P AS SELECT 0"
        (some (SPDraftManager.preDeployComment none)) []).2 :=
  ⟨by decide,
   (deployDraft_swap_failure_atomic "dbo_draft" 5 "dbo" "P" none
      SPDraftManager.SwapFailure.atCreate
      ⟨[(("dbo_draft", "P"), "CREATE PROCEDURE dbo_draft.P AS SELECT 1"),
        (("dbo", "P"), "CREATE PROCEDURE dbo.P AS SELECT 0")], []⟩
      "CREATE PROCEDURE dbo_draft.P AS SELECT 1" (by decide)).1,
   (deployDraft_swap_failure_atomic "dbo_draft" 5 "dbo" "P" none
      SPDraftManager.SwapFailure.atCreate
      ⟨[(("dbo_draft", "P"), "CREATE PROCEDURE dbo_draft.P AS SELECT 1"),
        (("dbo", "P"), "CREATE PROCEDURE dbo.P AS SELECT 0")], []⟩
      "CREATE PROCEDURE dbo_draft.P AS SELECT 1" (by decide)).2.1,
   (deployDraft_swap_failure_atomic "dbo_draft" 5 "dbo" "P" none
      SPDraftManager.SwapFailure.atCreate
      ⟨[(("dbo_draft", "P"), "CREATE PROCEDURE dbo_draft.P AS SELECT 1"),
        (("dbo", "P"), "CREATE PROCEDURE dbo.P AS SELECT 0")], []⟩
      "CREATE PROCEDURE dbo_draft.P AS SELECT 1" (by decide)).2.2.2.1
     "CREATE PROCEDURE dbo.P AS SELECT 0" (by decide)⟩

/-- C2: in a `deployDraft` run where a production definition exists, the
Version-Store save of the outgoing production definition is the first
database step, strictly before the transaction that mutates production
(drop, create), and the draft deletion happens only after the commit — on
any swap failure no draft deletion occurs at all.  A successful deploy
ends with no draft, the rewritten draft text as the production definition,
and exactly one new version snapshot: the backup row is present and every
row of the resulting version table is either an old row or that backup
row. -/
theorem deployDraft_backup_ordering
    (draftSchema : String) (maxVersions : Nat) (schema name : String)
    (comment : Option String) (st : DBState) (draftDef cur : String)
    (hN : 1 ≤ maxVersions) (hne : draftSchema ≠ schema)
    (hdraft : getProc st.procs draftSchema name = some draftDef)
    (hcur : getProc st.procs schema name = some cur) :
    (SPDraftManager.deployDraft draftSchema maxVersions schema name comment
        none false st).trace =
      [SPDraftManager.DeployEvent.saveVersionEv schema name cur,
       SPDraftManager.DeployEvent.beginTxnEv,
       SPDraftManager.DeployEvent.execDropProdEv,
       SPDraftManager.DeployEvent.execCreateProdEv,
       SPDraftManager.DeployEvent.commitEv,
       SPDraftManager.DeployEvent.deleteDraftEv]
    ∧ (∀ fp, SPDraftManager.DeployEvent.deleteDraftEv ∉
        (SPDraftManager.deployDraft draftSchema maxVersions schema name comment
          (some fp) false st).trace)
    ∧ (SPDraftManager.deployDraft draftSchema maxVersions schema name comment
        none false st).error = none
    ∧ getProc (SPDraftManager.deployDraft draftSchema maxVersions schema name
        comment none false st).state.procs draftSchema name = none
    ∧ getProc (SPDraftManager.deployDraft draftSchema maxVersions schema name
        comment none false st).state.procs schema name =
      some (SPDraftManager.rewriteForProductionSchema draftSchema schema draftDef)
    ∧ (⟨schema, name, VersionManager.nextVersion st.versions schema name, cur,
        VersionManager.normComment
          (some (SPDraftManager.preDeployComment comment))⟩ : VersionRow) ∈
        (SPDraftManager.deployDraft draftSchema maxVersions schema name comment
          none false st).state.versions
    ∧ (∀ r ∈ (SPDraftManager.deployDraft draftSchema maxVersions schema name
          comment none false st).state.versions,
        r ∈ st.versions ∨
          r = ⟨schema, name, VersionManager.nextVersion st.versions schema name,
            cur, VersionManager.normComment
              (some (SPDraftManager.preDeployComment comment))⟩) := by
  unfold SPDraftManager.deployDraft
  rw [hdraft, hcur]
  have hnepair : ¬(draftSchema = schema ∧ name = name) := fun hp => hne hp.1
  refine ⟨rfl, ?_, rfl, ?_, ?_, ?_, ?_⟩
  · intro fp
    cases fp <;> simp
  · show getProc (dropProc (setProc st.procs schema name
        (SPDraftManager.rewriteForProductionSchema draftSchema schema draftDef))
        draftSchema name) draftSchema name = none
    exact getProc_dropProc_self _ _ _
  · show getProc (dropProc (setProc st.procs schema name
        (SPDraftManager.rewriteForProductionSchema draftSchema schema draftDef))
        draftSchema name) schema name = _
    rw [getProc_dropProc_ne _ _ _ _ _ hnepair]
    exact getProc_setProc_self _ _ _ _
  · show (⟨schema, name, VersionManager.nextVersion st.versions schema name, cur,
        VersionManager.normComment
          (some (SPDraftManager.preDeployComment comment))⟩ : VersionRow) ∈
      (VersionManager.saveVersion maxVersions schema name cur
        (some (SPDraftManager.preDeployComment comment)) st.versions).2
    exact saveVersion_mem_new maxVersions hN schema name cur _ st.versions
  · show ∀ r ∈ (VersionManager.saveVersion maxVersions schema name cur
        (some (SPDraftManager.preDeployComment comment)) st.versions).2, _
    exact saveVersion_subset maxVersions schema name cur _ st.versions

/-- Witness for C2 at a concrete database state. -/
theorem deployDraft_backup_ordering_witness :
    (1 ≤ 5 ∧ "dbo_draft" ≠ "dbo"
      ∧ getProc [(("dbo_draft", "P"), "CREATE PROCEDURE dbo_draft.P AS SELECT 1"),
          (("dbo", "P"), "CREATE PROCEDURE dbo.P AS SELECT 0")]
        "dbo_draft" "P" = some "CREATE PROCEDURE dbo_draft.P AS SELECT 1")
    ∧ (SPDraftManager.deployDraft "dbo_draft" 5 "dbo" "P" none none false
        ⟨[(("dbo_draft", "P"), "CREATE PROCEDURE dbo_draft.P AS SELECT 1"),
          (("dbo", "P"), "CREATE PROCEDURE dbo.P AS SELECT 0")], []⟩).trace =
      [SPDraftManager.DeployEvent.saveVersionEv "dbo" "P"
        "CREATE PROCEDURE dbo.P AS SELECT 0",
       SPDraftManager.DeployEvent.beginTxnEv,
       SPDraftManager.DeployEvent.execDropProdEv,
       SPDraftManager.DeployEvent.execCreateProdEv,
       SPDraftManager.DeployEvent.commitEv,
       SPDraftManager.DeployEvent.deleteDraftEv]
    ∧ (⟨"dbo", "P", VersionManager.nextVersion [] "dbo" "P",
        "CREATE PROCEDURE dbo.P AS SELECT 0",
        VersionManager.normComment
          (some (SPDraftManager.preDeployComment none))⟩ : VersionRow) ∈
        (SPDraftManager.deployDraft "dbo_draft" 5 "dbo" "P" none none false
          ⟨[(("dbo_draft", "P"), "CREATE PROCEDURE dbo_draft.P AS SELECT 1"),
            (("dbo", "P"), "CREATE PROCEDURE dbo.P AS SELECT 0")], []⟩).state.versions :=
  ⟨⟨by decide, by decide, by decide⟩,
   (deployDraft_backup_ordering "dbo_draft" 5 "dbo" "P" none
      ⟨[(("dbo_draft", "P"), "CREATE PROCEDURE dbo_draft.P AS SELECT 1"),
        (("dbo", "P"), "CREATE PROCEDURE dbo.P AS SELECT 0")], []⟩
      "CREATE PROCEDURE dbo_draft.P AS SELECT 1"
      "CREATE PROCEDURE dbo.P AS SELECT 0"
      (by decide) (by decide) (by decide) (by decide)).1,
   (deployDraft_backup_ordering "dbo_draft" 5 "dbo" "P" none
      ⟨[(("dbo_draft", "P"), "CREATE PROCEDURE dbo_draft.P AS SELECT 1"),
        (("dbo", "P"), "CREATE PROCEDURE dbo.P AS SELECT 0")], []⟩
      "CREATE PROCEDURE dbo_draft.P AS SELECT 1"
      "CREATE PROCEDURE dbo.P AS SELECT 0"
      (by decide) (by decide) (by decide) (by decide)).2.2.2.2.2.1⟩

theorem deployDraft_success_procs
    (draftSchema : String) (N : Nat) (schema name : String) (c : Option String)
    (st : DBState) (draftDef : String)
    (hne : draftSchema ≠ schema)
    (hdraft : getProc st.procs draftSchema name = some draftDef) :
    getProc (SPDraftManager.deployDraft draftSchema N schema name c none false
        st).state.procs schema name =
      some (SPDraftManager.rewriteForProductionSchema draftSchema schema draftDef)
    ∧ (SPDraftManager.deployDraft draftSchema N schema name c none false
        st).state.versions =
      (match getProc st.procs schema name with
       | some cur => (VersionManager.saveVersion N schema name cur
           (some (SPDraftManager.preDeployComment c)) st.versions).2
       | none => st.versions) := by
  unfold SPDraftManager.deployDraft
  rw [hdraft]
  have hnepair : ¬(draftSchema = schema ∧ name = name) := fun hp => hne hp.1
  cases hcur : getProc st.procs schema name with
  | none =>
    refine ⟨?_, rfl⟩
    show getProc (dropProc (setProc st.procs schema name
        (SPDraftManager.rewriteForProductionSchema draftSchema schema draftDef))
        draftSchema name) schema name = _
    rw [getProc_dropProc_ne _ _ _ _ _ hnepair]
    exact getProc_setProc_self _ _ _ _
  | some cur =>
    refine ⟨?_, rfl⟩
    show getProc (dropProc (setProc st.procs schema name
        (SPDraftManager.rewriteForProductionSchema draftSchema schema draftDef))
        draftSchema name) schema name = _
    rw [getProc_dropProc_ne _ _ _ _ _ hnepair]
    exact getProc_setProc_self _ _ _ _

theorem rollback_latest_success (schema name : String) (st : DBState)
    (row : VersionRow)
    (hlatest : VersionManager.getLatestVersion st.versions schema name = some row) :
    (SPDraftManager.rollback schema name none none st).error = none
    ∧ getProc (SPDraftManager.rollback schema name none none st).state.procs
        schema name = some row.definition := by
  unfold SPDraftManager.rollback
  rw [hlatest]
  exact ⟨rfl, getProc_setProc_self _ _ _ _⟩

/-- C3: deploy definition A, then deploy definition B for the same routine
(the second deploy starting from any state whose draft is B and whose
production entry and version table are those left by the first deploy),
then `rollback` with no explicit version: the production definition
afterwards is byte-for-byte the production definition that deploying A
installed (the rewritten A text). -/
theorem deploy_deploy_rollback_roundtrip
    (draftSchema schema name : String) (N : Nat) (c1 c2 : Option String)
    (hN : 1 ≤ N) (hne : draftSchema ≠ schema)
    (st0 stB : DBState) (defA defB : String)
    (hdraftA : getProc st0.procs draftSchema name = some defA)
    (hdraftB : getProc stB.procs draftSchema name = some defB)
    (hprodB : getProc stB.procs schema name =
      getProc (SPDraftManager.deployDraft draftSchema N schema name c1 none
        false st0).state.procs schema name)
    (_hversB : stB.versions =
      (SPDraftManager.deployDraft draftSchema N schema name c1 none
        false st0).state.versions) :
    (SPDraftManager.rollback schema name none none
        (SPDraftManager.deployDraft draftSchema N schema name c2 none false
          stB).state).error = none
    ∧ getProc (SPDraftManager.rollback schema name none none
        (SPDraftManager.deployDraft draftSchema N schema name c2 none false
          stB).state).state.procs schema name =
      getProc (SPDraftManager.deployDraft draftSchema N schema name c1 none
        false st0).state.procs schema name
    ∧ getProc (SPDraftManager.deployDraft draftSchema N schema name c1 none
        false st0).state.procs schema name =
      some (SPDraftManager.rewriteForProductionSchema draftSchema schema defA) := by
  have h1 := deployDraft_success_procs draftSchema N schema name c1 st0 defA
    hne hdraftA
  have h2 := deployDraft_success_procs draftSchema N schema name c2 stB defB
    hne hdraftB
  have hprodB' : getProc stB.procs schema name =
      some (SPDraftManager.rewriteForProductionSchema draftSchema schema defA) :=
    hprodB.trans h1.1
  have hv2 : (SPDraftManager.deployDraft draftSchema N schema name c2 none false
      stB).state.versions =
      (VersionManager.saveVersion N schema name
        (SPDraftManager.rewriteForProductionSchema draftSchema schema defA)
        (some (SPDraftManager.preDeployComment c2)) stB.versions).2 := by
    rw [h2.2, hprodB']
  have hlatest : VersionManager.getLatestVersion
      (SPDraftManager.deployDraft draftSchema N schema name c2 none false
        stB).state.versions schema name =
      some ⟨schema, name, VersionManager.nextVersion stB.versions schema name,
        SPDraftManager.rewriteForProductionSchema draftSchema schema defA,
        VersionManager.normComment (some (SPDraftManager.preDeployComment c2))⟩ := by
    rw [hv2]
    exact getLatestVersion_saveVersion N hN schema name _ _ stB.versions
  have hroll := rollback_latest_success schema name
    (SPDraftManager.deployDraft draftSchema N schema name c2 none false stB).state
    _ hlatest
  exact ⟨hroll.1, hroll.2.trans h1.1.symm, h1.1⟩

/-- Witness for C3 at concrete states: deploy `SELECT 1` as A, deploy
`SELECT 2` as B, rollback restores the production text of A. -/
theorem deploy_deploy_rollback_roundtrip_witness :
    (getProc [(("dbo_draft", "P"), "CREATE PROCEDURE dbo_draft.P AS SELECT 1")]
        "dbo_draft" "P" = some "CREATE PROCEDURE dbo_draft.P AS SELECT 1"
      ∧ getProc [(("dbo", "P"), "CREATE PROCEDURE dbo.P AS SELECT 1"),
          (("dbo_draft", "P"), "CREATE PROCEDURE dbo_draft.P AS SELECT 2")]
        "dbo_draft" "P" = some "CREATE PROCEDURE dbo_draft.P AS SELECT 2")
    ∧ getProc (SPDraftManager.rollback "dbo" "P" none none
        (SPDraftManager.deployDraft "dbo_draft" 5 "dbo" "P" none none false
          ⟨[(("dbo", "P"), "CREATE PROCEDURE dbo.P AS SELECT 1"),
            (("dbo_draft", "P"), "CREATE PROCEDURE dbo_draft.P AS SELECT 2")],
           []⟩).state).state.procs "dbo" "P" =
      getProc (SPDraftManager.deployDraft "dbo_draft" 5 "dbo" "P" none none false
        ⟨[(("dbo_draft", "P"), "CREATE PROCEDURE dbo_draft.P AS SELECT 1")],
         []⟩).state.procs "dbo" "P"
    ∧ getProc (SPDraftManager.deployDraft "dbo_draft" 5 "dbo" "P" none none false
        ⟨[(("dbo_draft", "P"), "CREATE PROCEDURE dbo_draft.P AS SELECT 1")],
         []⟩).state.procs "dbo" "P" =
      some (SPDraftManager.rewriteForProductionSchema "dbo_draft" "dbo"
        "CREATE PROCEDURE dbo_draft.P AS SELECT 1") :=
  ⟨⟨by decide, by decide⟩,
   (deploy_deploy_rollback_roundtrip "dbo_draft" "dbo" "P" 5 none none
      (by decide) (by decide)
      ⟨[(("dbo_draft", "P"), "CREATE PROCEDURE dbo_draft.P AS SELECT 1")], []⟩
      ⟨[(("dbo", "P"), "CREATE PROCEDURE dbo.P AS SELECT 1"),
        (("dbo_draft", "P"), "CREATE PROCEDURE dbo_draft.P AS SELECT 2")], []⟩
      "CREATE PROCEDURE dbo_draft.P AS SELECT 1"
      "CREATE PROCEDURE dbo_draft.P AS SELECT 2"
      (by decide) (by decide) (by decide) (by decide)).2.1,
   (deploy_deploy_rollback_roundtrip "dbo_draft" "dbo" "P" 5 none none
      (by decide) (by decide)
      ⟨[(("dbo_draft", "P"), "CREATE PROCEDURE dbo_draft.P AS SELECT 1")], []⟩
      ⟨[(("dbo", "P"), "CREATE PROCEDURE dbo.P AS SELECT 1"),
        (("dbo_draft", "P"), "CREATE PROCEDURE dbo_draft.P AS SELECT 2")], []⟩
      "CREATE PROCEDURE dbo_draft.P AS SELECT 1"
      "CREATE PROCEDURE dbo_draft.P AS SELECT 2"
      (by decide) (by decide) (by decide) (by decide)).2.2⟩

/-! ## Retention-pruning lemmas for the version store -/

theorem length_filter_lt {α : Type} (l : List α) (p q : α → Bool)
    (him : ∀ x ∈ l, p x = true → q x = true)
    (x0 : α) (hx0 : x0 ∈ l) (hq : q x0 = true) (hp : p x0 = false) :
    (l.filter p).length < (l.filter q).length := by
  have heq : l.filter p = (l.filter q).filter p := by
    rw [List.filter_filter]
    apply List.filter_congr
    intro a ha
    cases hpa : p a
    · simp
    · rw [him a ha hpa]
      rfl
  have hsub : (l.filter p).Sublist (l.filter q) := by
    rw [heq]
    exact List.filter_sublist _
  rcases Nat.lt_or_ge (l.filter p).length (l.filter q).length with h | h
  · exact h
  · exfalso
    have hlen : (l.filter p).length = (l.filter q).length :=
      le_antisymm hsub.length_le h
    have heq2 : l.filter p = l.filter q := hsub.eq_of_length hlen
    have hm : x0 ∈ l.filter q := List.mem_filter.mpr ⟨hx0, hq⟩
    rw [← heq2] at hm
    have hpx := (List.mem_filter.mp hm).2
    rw [hp] at hpx
    exact Bool.false_ne_true hpx

theorem countGreater_lt_of_mem (L : List VersionRow) (r1 r2 : VersionRow)
    (_h1 : r1 ∈ L) (h2 : r2 ∈ L) (hv : r1.version < r2.version) :
    VersionManager.countGreater L r2.version <
      VersionManager.countGreater L r1.version := by
  unfold VersionManager.countGreater
  apply length_filter_lt L _ _ _ r2 h2
  · exact decide_eq_true hv
  · exact decide_eq_false (lt_irrefl _)
  · intro x _ hp
    exact decide_eq_true (lt_trans hv (of_decide_eq_true hp))

theorem countGreater_le_of_le (L : List VersionRow) (v w : Nat) (hvw : v ≤ w) :
    VersionManager.countGreater L w ≤ VersionManager.countGreater L v := by
  unfold VersionManager.countGreater
  have heq : L.filter (fun r => decide (w < r.version)) =
      (L.filter (fun r => decide (v < r.version))).filter
        (fun r => decide (w < r.version)) := by
    rw [List.filter_filter]
    apply List.filter_congr
    intro a _
    cases hpa : decide (w < a.version)
    · simp
    · have hva : v < a.version := lt_of_le_of_lt hvw (of_decide_eq_true hpa)
      rw [decide_eq_true hva]
      rfl
  rw [heq]
  exact (List.filter_sublist _).length_le

theorem nodup_lt_length_le (l : List Nat) (N : Nat) (hnd : l.Nodup)
    (hlt : ∀ x ∈ l, x < N) : l.length ≤ N := by
  have h1 : l.toFinset.card = l.length := List.toFinset_card_of_nodup hnd
  have h2 : l.toFinset ⊆ Finset.range N := by
    intro x hx
    exact Finset.mem_range.mpr (hlt x (List.mem_toFinset.mp hx))
  calc l.length = l.toFinset.card := h1.symm
    _ ≤ (Finset.range N).card := Finset.card_le_card h2
    _ = N := Finset.card_range N

theorem countGreater_inj_on (L : List VersionRow) (x y : Nat)
    (hx : x ∈ L.map (fun r => r.version)) (hy : y ∈ L.map (fun r => r.version))
    (hxy : VersionManager.countGreater L x = VersionManager.countGreater L y) :
    x = y := by
  by_contra hne
  obtain ⟨rx, hrx, hrxv⟩ := List.mem_map.mp hx
  obtain ⟨ry, hry, hryv⟩ := List.mem_map.mp hy
  rcases Nat.lt_or_ge x y with hlt | hge
  · have hc := countGreater_lt_of_mem L rx ry hrx hry
      (by rw [hrxv, hryv]; exact hlt)
    rw [hrxv, hryv] at hc
    omega
  · have hyx : y < x := lt_of_le_of_ne hge fun he => hne he.symm
    have hc := countGreater_lt_of_mem L ry rx hry hrx
      (by rw [hrxv, hryv]; exact hyx)
    rw [hrxv, hryv] at hc
    omega

theorem kept_length_le (L : List VersionRow) (N : Nat)
    (hnd : (L.map (fun r => r.version)).Nodup) :
    (L.filter fun r =>
      decide (VersionManager.countGreater L r.version < N)).length ≤ N := by
  have hsubF : (L.filter fun r =>
      decide (VersionManager.countGreater L r.version < N)).Sublist L :=
    List.filter_sublist L
  have hndF : ((L.filter fun r =>
      decide (VersionManager.countGreater L r.version < N)).map
        (fun r => r.version)).Nodup :=
    List.Nodup.sublist (List.Sublist.map _ hsubF) hnd
  have hndc : (((L.filter fun r =>
      decide (VersionManager.countGreater L r.version < N)).map
        (fun r => r.version)).map
          (fun v => VersionManager.countGreater L v)).Nodup := by
    apply List.Nodup.map_on _ hndF
    intro x hx y hy hxy
    exact countGreater_inj_on L x y
      ((List.Sublist.map (fun r => r.version) hsubF).subset hx)
      ((List.Sublist.map (fun r => r.version) hsubF).subset hy) hxy
  have hbound : ∀ cv ∈ ((L.filter fun r =>
      decide (VersionManager.countGreater L r.version < N)).map
        (fun r => r.version)).map (fun v => VersionManager.countGreater L v),
      cv < N := by
    intro cv hcv
    obtain ⟨v, hv, hveq⟩ := List.mem_map.mp hcv
    obtain ⟨r, hr, hrv⟩ := List.mem_map.mp hv
    have hpred := (List.mem_filter.mp hr).2
    rw [← hveq, ← hrv]
    exact of_decide_eq_true hpred
  have := nodup_lt_length_le _ N hndc hbound
  rwa [List.length_map, List.length_map] at this

/-- C6: `saveVersion` returns `1 + max existing version` for the key
(`1` when none exists, as `maxVer [] = 0`), the inserted row with that
version and the given definition is present afterwards, at most the
configured retention count `N` of rows remain for the key, and the
surviving rows are the most recent ones: every pruned row's version is
strictly below every surviving row's version.  (The version table is
assumed to hold pairwise-distinct version numbers for the key, the
invariant `saveVersion` itself maintains.) -/
theorem saveVersion_spec
    (N : Nat) (sch nm d : String) (c : Option String) (vs : List VersionRow)
    (hN : 1 ≤ N)
    (hnd : ((VersionManager.rowsFor vs sch nm).map (fun r => r.version)).Nodup) :
    (VersionManager.saveVersion N sch nm d c vs).1 =
      VersionManager.maxVer (VersionManager.rowsFor vs sch nm) + 1
    ∧ (⟨sch, nm, (VersionManager.saveVersion N sch nm d c vs).1, d,
        VersionManager.normComment c⟩ : VersionRow) ∈
        (VersionManager.saveVersion N sch nm d c vs).2
    ∧ (VersionManager.rowsFor (VersionManager.saveVersion N sch nm d c vs).2
        sch nm).length ≤ N
    ∧ ∀ r ∈ VersionManager.rowsFor vs sch nm,
        r ∉ (VersionManager.saveVersion N sch nm d c vs).2 →
        ∀ r' ∈ VersionManager.rowsFor
            (VersionManager.saveVersion N sch nm d c vs).2 sch nm,
          r.version < r'.version := by
  have hkey : (((⟨sch, nm, VersionManager.nextVersion vs sch nm, d,
      VersionManager.normComment c⟩ : VersionRow)).schemaName == sch &&
      ((⟨sch, nm, VersionManager.nextVersion vs sch nm, d,
      VersionManager.normComment c⟩ : VersionRow)).procName == nm) = true := by
    simp
  have hrowsK1 : VersionManager.rowsFor
      (vs ++ [⟨sch, nm, VersionManager.nextVersion vs sch nm, d,
        VersionManager.normComment c⟩]) sch nm =
      VersionManager.rowsFor vs sch nm ++
        [⟨sch, nm, VersionManager.nextVersion vs sch nm, d,
          VersionManager.normComment c⟩] :=
    rowsFor_append_key vs sch nm _ hkey
  have hndK1 : ((VersionManager.rowsFor
      (vs ++ [⟨sch, nm, VersionManager.nextVersion vs sch nm, d,
        VersionManager.normComment c⟩]) sch nm).map
      (fun r => r.version)).Nodup := by
    rw [hrowsK1, List.map_append]
    rw [List.nodup_append]
    refine ⟨hnd, List.nodup_singleton _, ?_⟩
    intro v hv hvx
    have hvx' : v = VersionManager.nextVersion vs sch nm := by
      simpa using hvx
    obtain ⟨r, hr, hrv⟩ := List.mem_map.mp hv
    have hle := le_maxVer _ r hr
    rw [hrv] at hle
    rw [hvx'] at hle
    exact absurd hle (by unfold VersionManager.nextVersion; omega)
  refine ⟨rfl, saveVersion_mem_new N hN sch nm d c vs, ?_, ?_⟩
  · show (VersionManager.rowsFor (VersionManager.cleanupOldVersions N sch nm
        (vs ++ [⟨sch, nm, VersionManager.nextVersion vs sch nm, d,
          VersionManager.normComment c⟩])) sch nm).length ≤ N
    rw [rowsFor_cleanupOldVersions]
    exact kept_length_le _ N hndK1
  · intro r hr hnot r' hr'
    have hkeyr := (List.mem_filter.mp hr).2
    have hrvs : r ∈ vs := (List.mem_filter.mp hr).1
    have hrv1 : r ∈ vs ++ [⟨sch, nm, VersionManager.nextVersion vs sch nm, d,
        VersionManager.normComment c⟩] := List.mem_append_left _ hrvs
    have hcount : ¬ (VersionManager.countGreater
        (VersionManager.rowsFor (vs ++ [⟨sch, nm,
          VersionManager.nextVersion vs sch nm, d,
          VersionManager.normComment c⟩]) sch nm) r.version < N) := by
      intro hc
      apply hnot
      show r ∈ VersionManager.cleanupOldVersions N sch nm
        (vs ++ [⟨sch, nm, VersionManager.nextVersion vs sch nm, d,
          VersionManager.normComment c⟩])
      apply List.mem_filter.mpr
      refine ⟨hrv1, ?_⟩
      show (!(r.schemaName == sch && r.procName == nm) ||
          decide (VersionManager.countGreater
            (VersionManager.rowsFor (vs ++ [⟨sch, nm,
              VersionManager.nextVersion vs sch nm, d,
              VersionManager.normComment c⟩]) sch nm) r.version < N)) = true
      rw [decide_eq_true hc, Bool.or_true]
    have hr'' : r' ∈ (VersionManager.rowsFor (vs ++ [⟨sch, nm,
        VersionManager.nextVersion vs sch nm, d,
        VersionManager.normComment c⟩]) sch nm).filter
          (fun q => decide (VersionManager.countGreater
            (VersionManager.rowsFor (vs ++ [⟨sch, nm,
              VersionManager.nextVersion vs sch nm, d,
              VersionManager.normComment c⟩]) sch nm) q.version < N)) := by
      rw [← rowsFor_cleanupOldVersions]
      exact hr'
    have hcount' := of_decide_eq_true (List.mem_filter.mp hr'').2
    by_contra hlt
    have hle : r'.version ≤ r.version := Nat.not_lt.mp hlt
    have hmono := countGreater_le_of_le
      (VersionManager.rowsFor (vs ++ [⟨sch, nm,
        VersionManager.nextVersion vs sch nm, d,
        VersionManager.normComment c⟩]) sch nm) r'.version r.version hle
    omega

/-- Witness for C6 at a concrete version table. -/
theorem saveVersion_spec_witness :
    ((1 : Nat) ≤ 2
      ∧ ((VersionManager.rowsFor [⟨"dbo", "P", 1, "a", none⟩,
          ⟨"dbo", "P", 2, "b", none⟩] "dbo" "P").map
            (fun r => r.version)).Nodup)
    ∧ (VersionManager.saveVersion 2 "dbo" "P" "c" none
        [⟨"dbo", "P", 1, "a", none⟩, ⟨"dbo", "P", 2, "b", none⟩]).1 =
      VersionManager.maxVer (VersionManager.rowsFor
        [⟨"dbo", "P", 1, "a", none⟩, ⟨"dbo", "P", 2, "b", none⟩] "dbo" "P") + 1
    ∧ (⟨"dbo", "P", (VersionManager.saveVersion 2 "dbo" "P" "c" none
        [⟨"dbo", "P", 1, "a", none⟩, ⟨"dbo", "P", 2, "b", none⟩]).1, "c",
        VersionManager.normComment none⟩ : VersionRow) ∈
      (VersionManager.saveVersion 2 "dbo" "P" "c" none
        [⟨"dbo", "P", 1, "a", none⟩, ⟨"dbo", "P", 2, "b", none⟩]).2
    ∧ (VersionManager.rowsFor (VersionManager.saveVersion 2 "dbo" "P" "c" none
        [⟨"dbo", "P", 1, "a", none⟩, ⟨"dbo", "P", 2, "b", none⟩]).2
        "dbo" "P").length ≤ 2 :=
  ⟨⟨by decide, by decide⟩,
   (saveVersion_spec 2 "dbo" "P" "c" none
      [⟨"dbo", "P", 1, "a", none⟩, ⟨"dbo", "P", 2, "b", none⟩]
      (by decide) (by decide)).1,
   (saveVersion_spec 2 "dbo" "P" "c" none
      [⟨"dbo", "P", 1, "a", none⟩, ⟨"dbo", "P", 2, "b", none⟩]
      (by decide) (by decide)).2.1,
   (saveVersion_spec 2 "dbo" "P" "c" none
      [⟨"dbo", "P", 1, "a", none⟩, ⟨"dbo", "P", 2, "b", none⟩]
      (by decide) (by decide)).2.2.1⟩

/-! ## Version-numbering concurrency claims -/

theorem runTwo_sequential (N : Nat) (schA nmA dA : String) (cA : Option String)
    (schB nmB dB : String) (cB : Option String) (vs : List VersionRow) :
    (VersionManager.runTwo N [true, true, true, false, false, false]
      (VersionManager.initSaver schA nmA dA cA)
      (VersionManager.initSaver schB nmB dB cB) vs).2.2 =
      (VersionManager.saveVersion N schB nmB dB cB
        (VersionManager.saveVersion N schA nmA dA cA vs).2).2 := rfl

/-- C7 counterexample: two concurrent `saveVersion` calls for the same
`(schema, name)` interleaved as read-max / read-max / insert / insert /
cleanup / cleanup (each step is one awaited database statement; nothing in
the code serialises them) both read the same maximum and both produce
version number 1, leaving two rows with duplicate version numbers — the
claimed "K distinct, contiguous version numbers" fails. -/
theorem saveVersion_concurrent_duplicate_counterexample :
    (VersionManager.runTwo 5 [true, false, true, false, true, false]
      (VersionManager.initSaver "dbo" "P" "defA" none)
      (VersionManager.initSaver "dbo" "P" "defB" none) []).1.localVersion =
      some 1
    ∧ (VersionManager.runTwo 5 [true, false, true, false, true, false]
        (VersionManager.initSaver "dbo" "P" "defA" none)
        (VersionManager.initSaver "dbo" "P" "defB" none) []).2.1.localVersion =
      some 1
    ∧ ¬ (((VersionManager.runTwo 5 [true, false, true, false, true, false]
        (VersionManager.initSaver "dbo" "P" "defA" none)
        (VersionManager.initSaver "dbo" "P" "defB" none) []).2.2.map
          (fun r => r.version)).Nodup) :=
  ⟨by decide, by decide, by decide⟩

/-- C7 (amended): `saveVersion` calls issued sequentially (each completing
before the next starts) yield distinct, contiguous version numbers with no
duplicates or gaps — `K` saves return `1 + max, 2 + max, …, K + max`;
concurrency safety is not provided by the code (see the counterexample). -/
theorem seqSaves_contiguous (N : Nat) (hN : 1 ≤ N) (sch nm : String)
    (defs : List String) (vs : List VersionRow) :
    (VersionManager.seqSaves N sch nm defs vs).1 =
      List.range' (VersionManager.nextVersion vs sch nm) defs.length := by
  induction defs generalizing vs with
  | nil => rfl
  | cons d ds ih =>
    show (VersionManager.nextVersion vs sch nm) ::
      (VersionManager.seqSaves N sch nm ds
        (VersionManager.saveVersion N sch nm d none vs).2).1 = _
    rw [ih ((VersionManager.saveVersion N sch nm d none vs).2),
      nextVersion_saveVersion N hN sch nm d none vs]
    rfl

/-- Witness for C7's amended theorem: three sequential saves from an empty
table return versions `[1, 2, 3]`. -/
theorem seqSaves_contiguous_witness :
    (1 : Nat) ≤ 5
    ∧ (VersionManager.seqSaves 5 "dbo" "P" ["a", "b", "c"] []).1 =
      List.range' (VersionManager.nextVersion [] "dbo" "P")
        (["a", "b", "c"] : List String).length :=
  ⟨by decide, seqSaves_contiguous 5 (by decide) "dbo" "P" ["a", "b", "c"] []⟩

/-! ## Timeout-sweep lemmas -/

theorem findTxn_removeTxn_absent (reg : TransactionManager.Registry)
    (i id : String)
    (habs : TransactionManager.findTxn reg id = none) :
    TransactionManager.findTxn (TransactionManager.removeTxn reg i) id = none := by
  apply List.find?_eq_none.mpr
  intro t ht
  exact List.find?_eq_none.mp habs t (List.mem_of_mem_filter ht)

theorem rollback_fst (e : Bool) (i : String) (reg : TransactionManager.Registry) :
    (TransactionManager.rollback e i reg).1 = reg ∨
      (TransactionManager.rollback e i reg).1 =
        TransactionManager.removeTxn reg i := by
  unfold TransactionManager.rollback
  cases hf : TransactionManager.findTxn reg i with
  | none => exact Or.inl rfl
  | some t =>
    cases e with
    | false => exact Or.inl rfl
    | true => exact Or.inr rfl

theorem rollback_fst_self (i : String) (reg : TransactionManager.Registry) :
    TransactionManager.findTxn (TransactionManager.rollback true i reg).1 i = none := by
  unfold TransactionManager.rollback
  cases hf : TransactionManager.findTxn reg i with
  | none => exact hf
  | some t => exact findTxn_removeTxn reg i

theorem forcedRollbacks_absent (e : String → Bool) (ids : List String)
    (reg : TransactionManager.Registry) (logs : List String) (id : String)
    (habs : TransactionManager.findTxn reg id = none) :
    TransactionManager.findTxn
      (TransactionManager.forcedRollbacks e ids reg logs).1 id = none := by
  induction ids generalizing reg logs habs with
  | nil => exact habs
  | cons i rest ih =>
    have habs1 : TransactionManager.findTxn
        (TransactionManager.rollback (e i) i reg).1 id = none := by
      rcases rollback_fst (e i) i reg with h | h
      · rw [h]; exact habs
      · rw [h]; exact findTxn_removeTxn_absent reg i id habs
    unfold TransactionManager.forcedRollbacks
    cases herr : (TransactionManager.rollback (e i) i reg).2 with
    | none => exact ih _ _ habs1
    | some er => exact ih _ _ habs1

theorem forcedRollbacks_removes (e : String → Bool) (ids : List String)
    (reg : TransactionManager.Registry) (logs : List String) (id : String)
    (hin : id ∈ ids) (hok : e id = true) :
    TransactionManager.findTxn
      (TransactionManager.forcedRollbacks e ids reg logs).1 id = none := by
  induction ids generalizing reg logs with
  | nil => cases hin
  | cons i rest ih =>
    unfold TransactionManager.forcedRollbacks
    by_cases hii : i = id
    · subst hii
      have habs1 : TransactionManager.findTxn
          (TransactionManager.rollback (e i) i reg).1 i = none := by
        rw [hok]
        exact rollback_fst_self i reg
      cases herr : (TransactionManager.rollback (e i) i reg).2 with
      | none => exact forcedRollbacks_absent e rest _ _ i habs1
      | some er => exact forcedRollbacks_absent e rest _ _ i habs1
    · have he : id ∈ rest := by
        rcases List.mem_cons.mp hin with h | h
        · exact absurd h.symm hii
        · exact h
      cases herr : (TransactionManager.rollback (e i) i reg).2 with
      | none => exact ih _ _ he
      | some er => exact ih _ _ he

theorem forcedRollbacks_keep_or_gone (e : String → Bool) (ids : List String)
    (reg : TransactionManager.Registry) (logs : List String)
    (t : TransactionManager.Txn) (ht : t ∈ reg) :
    t ∈ (TransactionManager.forcedRollbacks e ids reg logs).1 ∨
      TransactionManager.findTxn
        (TransactionManager.forcedRollbacks e ids reg logs).1 t.id = none := by
  induction ids generalizing reg logs ht with
  | nil => exact Or.inl ht
  | cons i rest ih =>
    have hstep : t ∈ (TransactionManager.rollback (e i) i reg).1 ∨
        TransactionManager.findTxn
          (TransactionManager.rollback (e i) i reg).1 t.id = none := by
      rcases rollback_fst (e i) i reg with h | h
      · rw [h]; exact Or.inl ht
      · rw [h]
        by_cases hti : (t.id == i) = true
        · right
          rw [eq_of_beq hti]
          exact findTxn_removeTxn reg i
        · left
          apply List.mem_filter.mpr
          refine ⟨ht, ?_⟩
          cases hb : (t.id == i) with
          | true => exact absurd hb hti
          | false => rfl
    unfold TransactionManager.forcedRollbacks
    cases herr : (TransactionManager.rollback (e i) i reg).2 with
    | none =>
      rcases hstep with hk | hg
      · exact ih _ _ hk
      · exact Or.inr (forcedRollbacks_absent e rest _ _ t.id hg)
    | some er =>
      rcases hstep with hk | hg
      · exact ih _ _ hk
      · exact Or.inr (forcedRollbacks_absent e rest _ _ t.id hg)

theorem cleanup_absent (timeout : Nat) (e : String → Bool) (now : Nat)
    (reg : TransactionManager.Registry) (id : String)
    (habs : TransactionManager.findTxn reg id = none) :
    TransactionManager.findTxn
      (TransactionManager.cleanupTimedOutTransactions timeout e [] now reg).1
      id = none := by
  unfold TransactionManager.cleanupTimedOutTransactions
  apply forcedRollbacks_absent
  apply List.find?_eq_none.mpr
  intro t ht
  exact List.find?_eq_none.mp habs t (List.mem_of_mem_filter ht)

theorem cleanup_removes_expired (timeout : Nat) (e : String → Bool) (now : Nat)
    (reg : TransactionManager.Registry) (t : TransactionManager.Txn)
    (ht : t ∈ reg) (hexp : timeout < now - t.startTime)
    (hok : e t.id = true) :
    TransactionManager.findTxn
      (TransactionManager.cleanupTimedOutTransactions timeout e [] now reg).1
      t.id = none := by
  unfold TransactionManager.cleanupTimedOutTransactions
  apply forcedRollbacks_removes _ _ _ _ _ _ hok
  unfold TransactionManager.expiredIds
  exact List.mem_map.mpr
    ⟨t, List.mem_filter.mpr ⟨ht, decide_eq_true hexp⟩, rfl⟩

theorem cleanup_keep_or_gone (timeout : Nat) (e : String → Bool) (now : Nat)
    (reg : TransactionManager.Registry) (t : TransactionManager.Txn)
    (ht : t ∈ reg) :
    t ∈ (TransactionManager.cleanupTimedOutTransactions timeout e [] now reg).1
    ∨ TransactionManager.findTxn
        (TransactionManager.cleanupTimedOutTransactions timeout e [] now reg).1
        t.id = none := by
  unfold TransactionManager.cleanupTimedOutTransactions
  apply forcedRollbacks_keep_or_gone
  apply List.mem_filter.mpr
  exact ⟨ht, rfl⟩

theorem runSweeps_absent (timeout : Nat) (e : String → Bool)
    (times : List Nat) (reg : TransactionManager.Registry) (id : String)
    (habs : TransactionManager.findTxn reg id = none) :
    TransactionManager.findTxn
      (TransactionManager.runSweeps timeout e times reg) id = none := by
  induction times generalizing reg habs with
  | nil => exact habs
  | cons u rest ih =>
    show TransactionManager.findTxn (TransactionManager.runSweeps timeout e rest
      (TransactionManager.cleanupTimedOutTransactions timeout e [] u reg).1)
      id = none
    exact ih _ (cleanup_absent timeout e u reg id habs)

theorem runSweeps_removes (timeout : Nat) (e : String → Bool)
    (times : List Nat) (reg : TransactionManager.Registry)
    (t : TransactionManager.Txn) (ht : t ∈ reg) (hok : e t.id = true)
    (hexists : ∃ u ∈ times, timeout < u - t.startTime) :
    TransactionManager.findTxn
      (TransactionManager.runSweeps timeout e times reg) t.id = none := by
  induction times generalizing reg ht with
  | nil =>
    rcases hexists with ⟨u, hu, _⟩
    cases hu
  | cons u rest ih =>
    show TransactionManager.findTxn (TransactionManager.runSweeps timeout e rest
      (TransactionManager.cleanupTimedOutTransactions timeout e [] u reg).1)
      t.id = none
    by_cases hexp : timeout < u - t.startTime
    · exact runSweeps_absent timeout e rest _ t.id
        (cleanup_removes_expired timeout e u reg t ht hexp hok)
    · rcases cleanup_keep_or_gone timeout e u reg t ht with hkeep | hgone
      · apply ih _ hkeep
        rcases hexists with ⟨u', hu', hexp'⟩
        rcases List.mem_cons.mp hu' with he | he
        · subst he
          exact absurd hexp' hexp
        · exact ⟨u', he, hexp'⟩
      · exact runSweeps_absent timeout e rest _ t.id hgone

theorem sweepTimes_covers (c interval k s timeout : Nat)
    (hI : 0 < interval) (hcs : c ≤ s)
    (hcover : s + timeout + interval ≤ c + k * interval) :
    ∃ u ∈ TransactionManager.sweepTimes c interval k, timeout < u - s := by
  have hcm : c + (s + timeout - c) = s + timeout := by omega
  have h1 : ((s + timeout - c) / interval) * interval ≤ s + timeout - c :=
    Nat.div_mul_le_self _ interval
  have hsucc : ((s + timeout - c) / interval + 1) * interval =
      ((s + timeout - c) / interval) * interval + interval := Nat.succ_mul _ _
  have hdm := Nat.div_add_mod (s + timeout - c) interval
  have hmod : (s + timeout - c) % interval < interval :=
    Nat.mod_lt _ hI
  have hcomm : interval * ((s + timeout - c) / interval) =
      ((s + timeout - c) / interval) * interval := Nat.mul_comm _ _
  have h6 : s + timeout - c < ((s + timeout - c) / interval) * interval + interval := by
    omega
  have h7 : s + timeout < c + ((s + timeout - c) / interval + 1) * interval := by
    omega
  have h3 : c + ((s + timeout - c) / interval + 1) * interval ≤
      c + k * interval := by
    omega
  have h5 : (s + timeout - c) / interval + 1 ≤ k :=
    Nat.le_of_mul_le_mul_right (by omega) hI
  refine ⟨c + ((s + timeout - c) / interval + 1) * interval, ?_, ?_⟩
  · unfold TransactionManager.sweepTimes
    exact List.mem_map.mpr
      ⟨(s + timeout - c) / interval, List.mem_range.mpr (by omega), rfl⟩
  · omega

/-- C8 counterexample: a transaction started at time 0 with no
commit/rollback call, observed at time 360000 = ceiling (300000) + one
sweep interval (60000) after a sweep tick at that time, is still
registered (still Active) when the engine-level rollback statement of the
forced rollback fails — the code deletes the registry entry only after a
successful engine rollback, so the sweep's removal is not unconditional as
the claim states (the failure is only logged and retried next sweep). -/
theorem sweep_timeout_counterexample :
    TransactionManager.TRANSACTION_TIMEOUT + TransactionManager.SWEEP_INTERVAL ≤ 360000
    ∧ (TransactionManager.cleanupTimedOutTransactions
        TransactionManager.TRANSACTION_TIMEOUT (fun _ => false) [] 360000
        [⟨"t1", 0⟩]).1 = [⟨"t1", 0⟩]
    ∧ (TransactionManager.cleanupTimedOutTransactions
        TransactionManager.TRANSACTION_TIMEOUT (fun _ => false) [] 360000
        [⟨"t1", 0⟩]).2 = ["Failed to rollback timed out transaction"] :=
  ⟨by decide, by decide, by decide⟩

/-- C8 (amended): (a) provided the engine-level rollback of the forced
rollback succeeds for the transaction, a transaction that receives no
commit or rollback call is no longer registered (no longer Active) once
the sweep schedule has passed (timeout ceiling + one sweep interval) past
its start time — some tick then observes age strictly above the ceiling
and the forced rollback deletes the entry, and later sweeps never
re-register it; if the engine rollback fails, the transaction stays
registered for the next sweep and the error is only logged.  (b) The
sweep's forced rollback of a transaction that already reached a terminal
state (no longer registered) surfaces no error to any caller: the
registry is left unchanged and the rejection becomes exactly one warning
log line of the sweep. -/
theorem sweep_timeout_amended :
    (∀ (timeout interval c k : Nat) (engineOk : String → Bool)
        (reg : TransactionManager.Registry) (t : TransactionManager.Txn),
        0 < interval → t ∈ reg → c ≤ t.startTime → engineOk t.id = true →
        t.startTime + timeout + interval ≤ c + k * interval →
        TransactionManager.findTxn
          (TransactionManager.runSweeps timeout engineOk
            (TransactionManager.sweepTimes c interval k) reg) t.id = none)
    ∧ (∀ (engineOk : String → Bool) (id : String)
        (reg : TransactionManager.Registry) (rest logs : List String),
        TransactionManager.findTxn reg id = none →
        TransactionManager.forcedRollbacks engineOk (id :: rest) reg logs =
          TransactionManager.forcedRollbacks engineOk rest reg
            (logs ++ ["Failed to rollback timed out transaction"])) := by
  constructor
  · intro timeout interval c k e reg t hI ht hcs hok hcover
    exact runSweeps_removes timeout e _ reg t ht hok
      (sweepTimes_covers c interval k t.startTime timeout hI hcs hcover)
  · intro e id reg rest logs habs
    have hrb : TransactionManager.rollback (e id) id reg =
        (reg, some TransactionManager.TMError.txnNotFound) := by
      unfold TransactionManager.rollback
      rw [habs]
    conv_lhs => unfold TransactionManager.forcedRollbacks
    rw [hrb]

/-- Witness for C8's amended theorem: with a 5-minute ceiling and 1-minute
sweep interval, six sweep ticks remove a transaction started at time 0
when its engine rollback succeeds; and a forced rollback of an
already-terminal transaction only appends the warning log line. -/
theorem sweep_timeout_amended_witness :
    ((0 : Nat) < 60000
      ∧ (⟨"t1", 0⟩ : TransactionManager.Txn) ∈
          ([⟨"t1", 0⟩] : TransactionManager.Registry)
      ∧ (0 : Nat) + 300000 + 60000 ≤ 0 + 6 * 60000
      ∧ TransactionManager.findTxn ([⟨"a", 0⟩] : TransactionManager.Registry)
          "t2" = none)
    ∧ TransactionManager.findTxn
        (TransactionManager.runSweeps 300000 (fun _ => true)
          (TransactionManager.sweepTimes 0 60000 6) [⟨"t1", 0⟩]) "t1" = none
    ∧ TransactionManager.forcedRollbacks (fun _ => true) ["t2"] [⟨"a", 0⟩] [] =
        TransactionManager.forcedRollbacks (fun _ => true) [] [⟨"a", 0⟩]
          ([] ++ ["Failed to rollback timed out transaction"]) :=
  ⟨⟨by decide, by decide, by decide, by decide⟩,
   sweep_timeout_amended.1 300000 60000 0 6 (fun _ => true) [⟨"t1", 0⟩]
     ⟨"t1", 0⟩ (by decide) (by decide) (by decide) (by decide) (by decide),
   sweep_timeout_amended.2 (fun _ => true) "t2" [⟨"a", 0⟩] [] [] (by decide)⟩
